import Mathlib

/-!
Verification model of the go-featuregate resolution engine.

The definitions below are a shallow embedding of the Go sources:
`resolver/resolver.go` (chain-based Gate), `store/memory.go`
(chain-based MemoryStore), `store/store.go`, `gate/keys.go` and the
`gate` package types (ScopeKind, ScopeRef, ScopeChain, ActorClaims,
OverrideState, trace structures).  Go strings are Lean `String`;
Go errors are modelled by their message text (`GoError`); fallible
calls return `Except GoError _`; the package-level `keyAliases` map
of the `gate` package is threaded explicitly as an association list;
Go maps are modelled as association lists with last-write-wins
lookup where insertion order matters, or insert-replace otherwise.
Hooks (resolve hooks / activity hooks) are pure observers with no
effect on results and are not modelled.  The Gate's pluggable
strategy field is fixed to `defaultResolveStrategy`, the default
installed by `resolver.New`.
-/

namespace FeatureGate

/-- Models a Go `error` value; only the message text is kept. -/
abbrev GoError := String

/-- Models the ASCII white-space set trimmed by `strings.TrimSpace`. -/
def isSpaceChar (c : Char) : Bool :=
  c == ' ' || c == '\t' || c == '\n' || c == '\x0b' || c == '\x0c' || c == '\r'

/-- Models `strings.TrimSpace`: drop leading and trailing white space. -/
def trimSpace (s : String) : String :=
  String.mk (((s.data.dropWhile isSpaceChar).reverse.dropWhile isSpaceChar).reverse)

/-- Models `strings.ToLower` (ASCII case folding). -/
def toLowerString (s : String) : String :=
  String.mk (s.data.map Char.toLower)

/-- Byte-order comparison on character lists, as Go compares strings. -/
def charListLeB : List Char → List Char → Bool
  | [], _ => true
  | _ :: _, [] => false
  | a :: as, b :: bs =>
    if a.toNat < b.toNat then true
    else if b.toNat < a.toNat then false
    else charListLeB as bs

/-- The string order used by `sort.Strings`. -/
def strle (a b : String) : Prop := charListLeB a.data b.data = true

instance : DecidableRel strle := fun a b => by
  unfold strle; infer_instance

/-- Models `sort.Strings` (ascending byte order). -/
def sortStrings (l : List String) : List String := List.insertionSort strle l

/-- ScopeKind from gate/scope types; `system` is the Go zero value. -/
inductive ScopeKind where
  | system
  | tenant
  | org
  | user
  | role
  | perm
deriving DecidableEq, Repr

/-- ScopeRef from the gate package. -/
structure ScopeRef where
  kind : ScopeKind
  id : String
  tenantID : String
  orgID : String
deriving DecidableEq, Repr

/-- The Go zero value of ScopeRef (Kind 0 is ScopeSystem). -/
def zeroScopeRef : ScopeRef := ⟨ScopeKind.system, "", "", ""⟩

/-- ScopeChain from the gate package. -/
abbrev ScopeChain := List ScopeRef

/-- ActorClaims from the gate package. -/
structure ActorClaims where
  subjectID : String
  tenantID : String
  orgID : String
  roles : List String
  perms : List String
deriving DecidableEq, Repr

/-- OverrideState is a Go string type; the Go zero value is `""`. -/
abbrev OverrideState := String

def OverrideStateMissing : OverrideState := "missing"

def OverrideStateEnabled : OverrideState := "enabled"

def OverrideStateDisabled : OverrideState := "disabled"

def OverrideStateUnset : OverrideState := "unset"

/-- Override from store/store.go. -/
structure Override where
  state : OverrideState
  value : Bool
deriving DecidableEq, Repr

/-- store.MissingOverride. -/
def MissingOverride : Override := ⟨OverrideStateMissing, false⟩

/-- store.UnsetOverride. -/
def UnsetOverride : Override := ⟨OverrideStateUnset, false⟩

/-- store.EnabledOverride. -/
def EnabledOverride : Override := ⟨OverrideStateEnabled, true⟩

/-- store.DisabledOverride. -/
def DisabledOverride : Override := ⟨OverrideStateDisabled, false⟩

/-- store.Override.HasValue. -/
def Override.hasValue (o : Override) : Bool :=
  o.state == OverrideStateEnabled || o.state == OverrideStateDisabled

/-- OverrideMatch from store (chain version). -/
structure OverrideMatch where
  scope : ScopeRef
  override : Override
deriving DecidableEq, Repr

/-- Association-list lookup, the first hit wins (used where the Go map
is only ever read after insert-replace updates). -/
def alLookup {κ α : Type} [DecidableEq κ] : List (κ × α) → κ → Option α
  | [], _ => none
  | (k', v) :: rest, k => if k' = k then some v else alLookup rest k

/-- Association-list insert with replacement, modelling `m[k] = v` on a
Go map. -/
def alInsert {κ α : Type} [DecidableEq κ] : List (κ × α) → κ → α → List (κ × α)
  | [], k, v => [(k, v)]
  | (k', v') :: rest, k, v =>
    if k' = k then (k, v) :: rest else (k', v') :: alInsert rest k v

/-- The `keyAliases` package variable of the gate package, as an
association list from alias key to canonical key. -/
abbrev AliasTable := List (String × String)

/-- gate.NormalizeKey: trim, then resolve a configured alias. -/
def NormalizeKey (A : AliasTable) (key : String) : String :=
  let k := trimSpace key
  if k = "" then ""
  else
    match alLookup A k with
    | some canonical => canonical
    | none => k

/-- gate.AliasesFor: all alias keys whose canonical key is the
normalized input, sorted (`sort.Strings` after map iteration). -/
def AliasesFor (A : AliasTable) (key : String) : List String :=
  let normalized := NormalizeKey A key
  if normalized = "" then []
  else
    let aliases := (A.filter (fun p => p.2 == normalized)).map (fun p => p.1)
    if aliases.isEmpty then [] else sortStrings aliases

/-- ResolveSource constants from gate/trace types. -/
def ResolveSourceOverride : String := "override"

def ResolveSourceDefault : String := "default"

def ResolveSourceFallback : String := "fallback"

/-- OverrideMatchTrace from the gate package (chain version). -/
structure OverrideMatchTrace where
  scope : ScopeRef
  state : OverrideState
  value : Option Bool
deriving DecidableEq, Repr

/-- OverrideTrace from the gate package (chain version); `matchRef`
models the Go field `Match`. -/
structure OverrideTrace where
  state : OverrideState
  value : Option Bool
  error : Option GoError
  matchRef : ScopeRef
  matchList : List OverrideMatchTrace
deriving DecidableEq, Repr

/-- The Go zero value of OverrideTrace (zero OverrideState is ""). -/
def emptyOverrideTrace : OverrideTrace := ⟨"", none, none, zeroScopeRef, []⟩

/-- DefaultTrace from the gate package. -/
structure DefaultTrace where
  set : Bool
  value : Bool
  error : Option GoError
deriving DecidableEq, Repr

/-- ResolveTrace from the gate package (chain version); `defaultT`
models the Go field `Default`. -/
structure ResolveTrace where
  key : String
  normalizedKey : String
  chain : ScopeChain
  value : Bool
  source : String
  override : OverrideTrace
  defaultT : DefaultTrace
  cacheHit : Bool
  strategy : String
  claimsFailureMode : String
deriving DecidableEq, Repr

/-- The Go zero value of ResolveTrace. -/
def emptyResolveTrace : ResolveTrace :=
  ⟨"", "", [], false, "", emptyOverrideTrace, ⟨false, false, none⟩, false, "", ""⟩

/-- OverrideDecision from resolver/resolver.go; `matchRef` models the
Go field `Match`. -/
structure OverrideDecision where
  matched : Bool
  value : Bool
  matchRef : ScopeRef
  matchList : List OverrideMatch
  strategy : String
deriving DecidableEq, Repr

/-- The Go zero value `OverrideDecision{}`. -/
def emptyOverrideDecision : OverrideDecision := ⟨false, false, zeroScopeRef, [], ""⟩

/-- The not-matched decision built by defaultResolveStrategy and
evaluateGroup: `OverrideDecision{Matched: false, Strategy: "default"}`. -/
def notMatchedDecision : OverrideDecision := ⟨false, false, zeroScopeRef, [], "default"⟩

/-- ResolveOptions from resolver/resolver.go. -/
structure ResolveOptions where
  scopeOrder : List ScopeKind

/-- DefaultResult from resolver/resolver.go. -/
structure DefaultResult where
  set : Bool
  value : Bool
deriving DecidableEq, Repr

/-- groupKind is a Go string type in resolver/resolver.go. -/
abbrev GroupKind := String

def groupUser : GroupKind := "user"

def groupRolePerm : GroupKind := "role_perm"

def groupOrg : GroupKind := "org"

def groupTenant : GroupKind := "tenant"

def groupSystem : GroupKind := "system"

/-- containsGroup from resolver/resolver.go. -/
def containsGroup : List GroupKind → GroupKind → Bool
  | [], _ => false
  | g :: rest, target => if g = target then true else containsGroup rest target

/-- groupOrderFor from resolver/resolver.go: partition the configured
scope order into the five strategy groups, collapsing role and perm
into one group, with the fixed order as fallback for an empty input. -/
def groupOrderFor (scopeOrder : List ScopeKind) : List GroupKind :=
  let order := scopeOrder.foldl (fun acc kind =>
    match kind with
    | ScopeKind.user => acc ++ [groupUser]
    | ScopeKind.role =>
        if containsGroup acc groupRolePerm then acc else acc ++ [groupRolePerm]
    | ScopeKind.perm =>
        if containsGroup acc groupRolePerm then acc else acc ++ [groupRolePerm]
    | ScopeKind.org => acc ++ [groupOrg]
    | ScopeKind.tenant => acc ++ [groupTenant]
    | ScopeKind.system => acc ++ [groupSystem]) []
  if order.isEmpty then [groupUser, groupRolePerm, groupOrg, groupTenant, groupSystem]
  else order

/-- scopeKindString from resolver/resolver.go. -/
def scopeKindString : ScopeKind → String
  | ScopeKind.system => "system"
  | ScopeKind.tenant => "tenant"
  | ScopeKind.org => "org"
  | ScopeKind.user => "user"
  | ScopeKind.role => "role"
  | ScopeKind.perm => "perm"

/-- scopeKey from resolver/resolver.go: the string map key for a ref. -/
def scopeKey (ref : ScopeRef) : String :=
  scopeKindString ref.kind ++ "|" ++ ref.tenantID ++ "|" ++ ref.orgID ++ "|" ++ ref.id

/-- scopeKindInGroup from resolver/resolver.go. -/
def scopeKindInGroup (kind : ScopeKind) (group : GroupKind) : Bool :=
  if group = groupUser then kind == ScopeKind.user
  else if group = groupRolePerm then kind == ScopeKind.role || kind == ScopeKind.perm
  else if group = groupOrg then kind == ScopeKind.org
  else if group = groupTenant then kind == ScopeKind.tenant
  else if group = groupSystem then kind == ScopeKind.system
  else false

/-- The lookup `matchMap[k]` where matchMap is the Go map built by
inserting every match keyed by scopeKey in list order; the last write
for a key wins, hence the reversed search. -/
def matchMapLookup (ms : List OverrideMatch) (k : String) : Option OverrideMatch :=
  ms.reverse.find? (fun m => scopeKey m.scope == k)

/-- collectGroupMatches from resolver/resolver.go: the chain-ordered
matches whose scope kind belongs to the group. -/
def collectGroupMatches (group : GroupKind) (chain : ScopeChain)
    (ms : List OverrideMatch) : List OverrideMatch :=
  chain.filterMap (fun ref =>
    if scopeKindInGroup ref.kind group then matchMapLookup ms (scopeKey ref) else none)

/-- toMatchTraces from resolver/resolver.go. -/
def toMatchTraces (ms : List OverrideMatch) : List OverrideMatchTrace :=
  ms.map (fun m =>
    { scope := m.scope
      state := m.override.state
      value := if m.override.state == OverrideStateEnabled then some true
               else if m.override.state == OverrideStateDisabled then some false
               else none })

/-- normalizeMatches from resolver/resolver.go: map the zero state ""
to missing. -/
def normalizeMatches (ms : List OverrideMatch) : List OverrideMatch :=
  ms.map (fun m =>
    if m.override.state = "" then
      { m with override := { m.override with state := OverrideStateMissing } }
    else m)

/-- evaluateGroup from resolver/resolver.go: for the role_perm group a
disabled match wins over any enabled one (most restrictive); for all
other groups the first match with a concrete value wins. -/
def evaluateGroup (group : GroupKind) (ms : List OverrideMatch) :
    OverrideDecision × OverrideTrace :=
  let trace : OverrideTrace :=
    { state := OverrideStateMissing, value := none, error := none
      matchRef := zeroScopeRef, matchList := toMatchTraces ms }
  if group = groupRolePerm then
    match ms.find? (fun m => m.override.state == OverrideStateDisabled) with
    | some m =>
        (⟨true, false, m.scope, ms, "default"⟩,
         { trace with state := OverrideStateDisabled, value := some false, matchRef := m.scope })
    | none =>
      match ms.find? (fun m => m.override.state == OverrideStateEnabled) with
      | some m =>
          (⟨true, true, m.scope, ms, "default"⟩,
           { trace with state := OverrideStateEnabled, value := some true, matchRef := m.scope })
      | none => (notMatchedDecision, trace)
  else
    match ms.find? (fun m =>
        m.override.state == OverrideStateEnabled || m.override.state == OverrideStateDisabled) with
    | some m =>
        if m.override.state == OverrideStateEnabled then
          (⟨true, true, m.scope, ms, "default"⟩,
           { trace with state := OverrideStateEnabled, value := some true, matchRef := m.scope })
        else
          (⟨true, false, m.scope, ms, "default"⟩,
           { trace with state := OverrideStateDisabled, value := some false, matchRef := m.scope })
    | none => (notMatchedDecision, trace)

/-- The group loop inside defaultResolveStrategy: skip groups with no
matches, skip groups that yield no decision, return the first decision. -/
def strategyLoop (chain : ScopeChain) (ms : List OverrideMatch) :
    List GroupKind → Option (OverrideDecision × OverrideTrace)
  | [] => none
  | group :: rest =>
    let groupMatches := collectGroupMatches group chain ms
    if groupMatches.isEmpty then strategyLoop chain ms rest
    else
      let r := evaluateGroup group groupMatches
      if r.1.matched then some r else strategyLoop chain ms rest

/-- defaultResolveStrategy from resolver/resolver.go (the ctx and key
parameters are unused by the Go code). -/
def defaultResolveStrategy (chain : ScopeChain) (ms : List OverrideMatch)
    (opts : ResolveOptions) : OverrideDecision × ResolveTrace :=
  let trace := { emptyResolveTrace with strategy := "default" }
  if ms.isEmpty then
    (notMatchedDecision,
     { trace with override := { emptyOverrideTrace with state := OverrideStateMissing } })
  else
    match strategyLoop chain ms (groupOrderFor opts.scopeOrder) with
    | some (decision, groupTrace) => (decision, { trace with override := groupTrace })
    | none =>
        (notMatchedDecision,
         { trace with override := { emptyOverrideTrace with state := OverrideStateMissing } })

/-- defaultScopeOrder from resolver/resolver.go. -/
def defaultScopeOrder : List ScopeKind :=
  [ScopeKind.user, ScopeKind.role, ScopeKind.perm,
   ScopeKind.org, ScopeKind.tenant, ScopeKind.system]

/-- defaultRolePermNormalizer from resolver/resolver.go:
`strings.ToLower(strings.TrimSpace(value))`. -/
def defaultRolePermNormalizer (value : String) : String :=
  toLowerString (trimSpace value)

/-- normalizeList from resolver/resolver.go: trim, drop empties,
normalize, drop empties again (the Gate always has a normalizer). -/
def normalizeList (values : List String) (normalizer : String → String) : List String :=
  if values.isEmpty then []
  else values.filterMap (fun value =>
    let trimmed := trimSpace value
    if trimmed = "" then none
    else
      let normalized := normalizer trimmed
      if normalized = "" then none else some normalized)

/-- sortAndDedupe from resolver/resolver.go: collect the distinct
values (a Go set map) and sort them ascending. -/
def sortAndDedupe (values : List String) : List String :=
  if values.isEmpty then [] else sortStrings values.dedup

/-- dedupeStable from resolver/resolver.go: drop later duplicates,
keeping provider order. -/
def dedupeStable (values : List String) : List String :=
  if values.isEmpty then []
  else values.foldl (fun out value => if value ∈ out then out else out ++ [value]) []

/-- buildRolePermRefs from resolver/resolver.go: one global ref per
identifier plus one tenant/org-qualified ref when context exists. -/
def buildRolePermRefs (kind : ScopeKind) (items : List String) (claims : ActorClaims) :
    ScopeChain :=
  if items.isEmpty then []
  else items.flatMap (fun id =>
    if id = "" then []
    else
      ⟨kind, id, "", ""⟩ ::
        (if claims.tenantID ≠ "" ∨ claims.orgID ≠ "" then
          [⟨kind, id, claims.tenantID, claims.orgID⟩]
        else []))

/-- appendSystemIfMissing from resolver/resolver.go. -/
def appendSystemIfMissing (chain : ScopeChain) : ScopeChain :=
  if chain.any (fun ref => ref.kind == ScopeKind.system) then chain
  else chain ++ [⟨ScopeKind.system, "", "", ""⟩]

/-- mergePerms from resolver/resolver.go. -/
def mergePerms (existing extra : List String) : List String :=
  if extra.isEmpty then existing else existing ++ extra

/-- MemoryStore scope key (store/memory.go, chain version). -/
structure MemScopeKey where
  kind : ScopeKind
  id : String
  tenantID : String
  orgID : String
deriving DecidableEq, Repr

/-- scopeKeyFromRef from store/memory.go: tenant/org refs with an
empty ID fall back to their tenant/org identifier. -/
def scopeKeyFromRef (ref : ScopeRef) : MemScopeKey :=
  let id :=
    if ref.id = "" then
      match ref.kind with
      | ScopeKind.tenant => ref.tenantID
      | ScopeKind.org => ref.orgID
      | _ => ref.id
    else ref.id
  ⟨ref.kind, id, ref.tenantID, ref.orgID⟩

/-- The MemoryStore entries map: feature key to scope-key map. -/
abbrev MemoryStore := List (String × List (MemScopeKey × Override))

/-- normalizeKey from store/memory.go: trim, resolve aliases, reject
empty keys. -/
def storeNormalizeKey (A : AliasTable) (key : String) : Except GoError String :=
  let trimmed := trimSpace key
  let normalized := NormalizeKey A trimmed
  if normalized = "" then Except.error "store: feature key required"
  else Except.ok normalized

/-- MemoryStore.GetAll from store/memory.go: intersect the chain with
the stored scope map, mapping the zero state to missing. -/
def memGetAll (A : AliasTable) (st : MemoryStore) (key : String) (chain : ScopeChain) :
    Except GoError (List OverrideMatch) :=
  match storeNormalizeKey A key with
  | Except.error e => Except.error e
  | Except.ok normalized =>
    let entries := (alLookup st normalized).getD []
    if entries.isEmpty then Except.ok []
    else Except.ok (chain.filterMap (fun ref =>
      (alLookup entries (scopeKeyFromRef ref)).map (fun ov =>
        { scope := ref
          override :=
            if ov.state = "" then { ov with state := OverrideStateMissing } else ov })))

/-- MemoryStore.Set from store/memory.go (the actor is ignored). -/
def memSet (A : AliasTable) (st : MemoryStore) (key : String) (ref : ScopeRef)
    (enabled : Bool) : Except GoError MemoryStore :=
  match storeNormalizeKey A key with
  | Except.error e => Except.error e
  | Except.ok normalized =>
    let ov := if enabled then EnabledOverride else DisabledOverride
    Except.ok (alInsert st normalized
      (alInsert ((alLookup st normalized).getD []) (scopeKeyFromRef ref) ov))

/-- MemoryStore.Unset from store/memory.go: write the unset tombstone. -/
def memUnset (A : AliasTable) (st : MemoryStore) (key : String) (ref : ScopeRef) :
    Except GoError MemoryStore :=
  match storeNormalizeKey A key with
  | Except.error e => Except.error e
  | Except.ok normalized =>
    Except.ok (alInsert st normalized
      (alInsert ((alLookup st normalized).getD []) (scopeKeyFromRef ref) UnsetOverride))

/-- cache.Entry (chain version). -/
structure CacheEntry where
  value : Bool
  trace : ResolveTrace
deriving DecidableEq, Repr

/-- One cache write performed by a resolve call. -/
structure CacheWrite where
  key : String
  chain : ScopeChain
  entry : CacheEntry
deriving DecidableEq, Repr

/-- ClaimsFailureMode constants from resolver/resolver.go. -/
def FailOpen : String := "fail_open"

def FailClosed : String := "fail_closed"

/-- The Gate model (resolver.Gate, chain version), with each injected
collaborator replaced by its behaviour for the ambient call context:
`claimsResult` is what the claims provider returns, `overrides` is the
reader's GetAll function (none when no store is configured),
`cacheGet` is the cache lookup, `defaults` the defaults boundary, and
`aliases` the gate package's keyAliases table.  The writer, hooks and
strategy are handled as described in the header. -/
structure GateM where
  aliases : AliasTable
  defaults : String → Except GoError DefaultResult
  overrides : Option (String → ScopeChain → Except GoError (List OverrideMatch))
  claimsResult : Except GoError ActorClaims
  permissionProvider : Option (ActorClaims → Except GoError (List String))
  cacheGet : String → ScopeChain → Option CacheEntry
  strictStore : Bool
  scopeOrder : List ScopeKind
  failureMode : String
  failureFallbackChain : ScopeChain
  appendSystemOnFailure : Bool
  appendSystemOnProvidedChain : Bool
  preserveRolePermOrder : Bool
  rolePermNormalizer : String → String

/-- Gate.normalizeScopeRef from resolver/resolver.go. -/
def normalizeScopeRef (g : GateM) (ref : ScopeRef) : ScopeRef :=
  let ref : ScopeRef :=
    { ref with
      id := trimSpace ref.id
      tenantID := trimSpace ref.tenantID
      orgID := trimSpace ref.orgID }
  if ref.kind = ScopeKind.role ∨ ref.kind = ScopeKind.perm then
    { ref with id := g.rolePermNormalizer ref.id }
  else ref

/-- Gate.buildChain from resolver/resolver.go. -/
def buildChain (g : GateM) (claims : ActorClaims) : ScopeChain :=
  let roles0 := normalizeList claims.roles g.rolePermNormalizer
  let perms0 := normalizeList claims.perms g.rolePermNormalizer
  let roles := if ¬g.preserveRolePermOrder then sortAndDedupe roles0 else dedupeStable roles0
  let perms := if ¬g.preserveRolePermOrder then sortAndDedupe perms0 else dedupeStable perms0
  g.scopeOrder.flatMap (fun kind =>
    match kind with
    | ScopeKind.user =>
        if claims.subjectID ≠ "" then
          [⟨ScopeKind.user, claims.subjectID, claims.tenantID, claims.orgID⟩]
        else []
    | ScopeKind.role => buildRolePermRefs ScopeKind.role roles claims
    | ScopeKind.perm => buildRolePermRefs ScopeKind.perm perms claims
    | ScopeKind.org =>
        if claims.orgID ≠ "" then
          [⟨ScopeKind.org, claims.orgID, claims.tenantID, claims.orgID⟩]
        else []
    | ScopeKind.tenant =>
        if claims.tenantID ≠ "" then
          [⟨ScopeKind.tenant, claims.tenantID, claims.tenantID, ""⟩]
        else []
    | ScopeKind.system => [⟨ScopeKind.system, "", "", ""⟩])

/-- Gate.resolveChain from resolver/resolver.go (the returned failure
mode is always the configured one and is read off `g` directly). -/
def resolveChainM (g : GateM) (chainOpt : Option ScopeChain) : Except GoError ScopeChain :=
  match chainOpt with
  | some provided =>
      Except.ok (if g.appendSystemOnProvidedChain then appendSystemIfMissing provided else provided)
  | none =>
    match g.claimsResult with
    | Except.error e =>
        if g.failureMode = FailClosed then Except.error e
        else
          Except.ok (if g.appendSystemOnFailure then
            appendSystemIfMissing g.failureFallbackChain
          else g.failureFallbackChain)
    | Except.ok claims =>
      match g.permissionProvider with
      | none => Except.ok (appendSystemIfMissing (buildChain g claims))
      | some provider =>
        match provider claims with
        | Except.error permErr =>
            if g.failureMode = FailClosed then Except.error permErr
            else
              Except.ok (if g.appendSystemOnFailure then
                appendSystemIfMissing g.failureFallbackChain
              else g.failureFallbackChain)
        | Except.ok perms =>
            Except.ok (appendSystemIfMissing
              (buildChain g { claims with perms := mergePerms claims.perms perms }))

/-- Error-wrapping helpers from the ferrors package; only the message
text is modelled. -/
def wrapExternal (e : GoError) (code msg : String) : GoError :=
  msg ++ " (" ++ code ++ "): " ++ e

def ErrInvalidKey : GoError := "feature key is invalid"

def TextCodeStoreReadFailed : String := "store_read_failed"

def TextCodeStoreWriteFailed : String := "store_write_failed"

def TextCodeDefaultLookupFailed : String := "default_lookup_failed"

def TextCodeScopeResolveFailed : String := "scope_resolve_failed"

/-- Gate.applyStrategy with the default strategy (never errors). -/
def applyStrategyM (g : GateM) (chain : ScopeChain) (ms : List OverrideMatch) :
    OverrideDecision × ResolveTrace :=
  defaultResolveStrategy chain ms ⟨g.scopeOrder⟩

/-- The alias retry loop of Gate.resolveOverrides: on the first alias
whose matches yield a decision, return it; a read error aborts. -/
def aliasLoop (g : GateM)
    (getAll : String → ScopeChain → Except GoError (List OverrideMatch))
    (chain : ScopeChain) (trace0 : ResolveTrace) :
    List String → Except GoError (OverrideDecision × ResolveTrace)
  | [] => Except.ok (emptyOverrideDecision, trace0)
  | a :: rest =>
    match getAll a chain with
    | Except.error e => Except.error e
    | Except.ok ms0 =>
      let r := applyStrategyM g chain (normalizeMatches ms0)
      if r.1.matched then Except.ok r else aliasLoop g getAll chain trace0 rest

/-- Gate.resolveOverrides from resolver/resolver.go.  When no decision
is reached the Go code returns the minimal trace declared before the
primary applyStrategy call (whose richer trace is shadowed), which is
what `trace0` models. -/
def resolveOverridesM (g : GateM)
    (getAll : String → ScopeChain → Except GoError (List OverrideMatch))
    (key : String) (chain : ScopeChain) :
    Except GoError (OverrideDecision × ResolveTrace) :=
  let trace0 := { emptyResolveTrace with strategy := "default" }
  match getAll key chain with
  | Except.error e => Except.error e
  | Except.ok ms0 =>
    let r := applyStrategyM g chain (normalizeMatches ms0)
    if r.1.matched then Except.ok r
    else aliasLoop g getAll chain trace0 (AliasesFor g.aliases key)

/-- The outcome of one Gate.resolve call: the returned value and
trace, the returned error, and the cache write performed (if any). -/
structure ResolveOutcome where
  value : Bool
  trace : ResolveTrace
  error : Option GoError
  cacheWrite : Option CacheWrite
deriving DecidableEq, Repr

/-- Gate.writeCache from resolver/resolver.go: skipped when a store
error occurred this call. -/
def writeCacheM (key : String) (chain : ScopeChain) (trace : ResolveTrace)
    (storeErr : Option GoError) : Option CacheWrite :=
  if storeErr.isSome then none
  else some ⟨key, chain, ⟨trace.value, trace⟩⟩

/-- The shared tail of Gate.resolve: consult the defaults boundary,
pick default or fallback, and write the cache unless a store error
occurred. -/
def defaultsPhase (g : GateM) (normalized : String) (chain : ScopeChain)
    (trace : ResolveTrace) (storeErr : Option GoError) : ResolveOutcome :=
  match g.defaults normalized with
  | Except.error e =>
    let werr := wrapExternal e TextCodeDefaultLookupFailed "default lookup failed"
    { value := false
      trace := { trace with
        defaultT := { trace.defaultT with error := some werr }
        source := ResolveSourceFallback }
      error := some werr
      cacheWrite := none }
  | Except.ok res =>
    let trace := { trace with
      defaultT := { trace.defaultT with set := res.set, value := res.value } }
    let trace :=
      if res.set then { trace with value := res.value, source := ResolveSourceDefault }
      else { trace with value := false, source := ResolveSourceFallback }
    { value := trace.value
      trace := trace
      error := none
      cacheWrite := writeCacheM normalized chain trace storeErr }

/-- Gate.resolve from resolver/resolver.go (chain version). -/
def resolve (g : GateM) (key : String) (chainOpt : Option ScopeChain) : ResolveOutcome :=
  let trimmed := trimSpace key
  let normalized := NormalizeKey g.aliases trimmed
  let trace := { emptyResolveTrace with key := trimmed, normalizedKey := normalized }
  if normalized = "" then
    { value := false
      trace := { trace with source := ResolveSourceFallback }
      error := some ErrInvalidKey
      cacheWrite := none }
  else
    match resolveChainM g chainOpt with
    | Except.error e0 =>
      { value := false
        trace := { trace with
          source := ResolveSourceFallback
          claimsFailureMode := g.failureMode }
        error := some (wrapExternal e0 TextCodeScopeResolveFailed "claims resolution failed")
        cacheWrite := none }
    | Except.ok chain =>
      let trace := { trace with chain := chain, claimsFailureMode := g.failureMode }
      match g.cacheGet normalized chain with
      | some entry =>
        let cached0 := entry.trace
        let cached1 := if cached0.key = "" then { cached0 with key := trimmed } else cached0
        let cached2 :=
          if cached1.normalizedKey = "" then { cached1 with normalizedKey := normalized }
          else cached1
        let cached := { cached2 with chain := chain, value := entry.value, cacheHit := true }
        { value := entry.value, trace := cached, error := none, cacheWrite := none }
      | none =>
        match g.overrides with
        | none =>
          defaultsPhase g normalized chain
            { trace with override := { trace.override with state := OverrideStateMissing } }
            none
        | some getAll =>
          match resolveOverridesM g getAll normalized chain with
          | Except.error e1 =>
            let werr := wrapExternal e1 TextCodeStoreReadFailed "override store read failed"
            if g.strictStore then
              { value := false
                trace := { trace with
                  override :=
                    { trace.override with error := some werr, state := OverrideStateMissing }
                  source := ResolveSourceFallback }
                error := some werr
                cacheWrite := none }
            else
              defaultsPhase g normalized chain
                { trace with override := { trace.override with error := some werr } }
                (some werr)
          | Except.ok (decision, otrace) =>
            let trace := { trace with override := otrace.override, strategy := otrace.strategy }
            if decision.matched then
              let trace :=
                { trace with value := decision.value, source := ResolveSourceOverride }
              { value := decision.value
                trace := trace
                error := none
                cacheWrite := writeCacheM normalized chain trace none }
            else defaultsPhase g normalized chain trace none

/-- Gate.Set from resolver/resolver.go, for a Gate whose writer is the
MemoryStore; returns the store after the write.  Cache invalidation
(Gate.invalidateCache clears the whole cache in every branch) and the
activity hook are collaborator side effects not modelled here. -/
def gateSetMem (g : GateM) (st : MemoryStore) (key : String) (scopeRef : ScopeRef)
    (enabled : Bool) : Except GoError MemoryStore :=
  let trimmed := trimSpace key
  let normalized := NormalizeKey g.aliases trimmed
  let ref := normalizeScopeRef g scopeRef
  if normalized = "" then Except.error ErrInvalidKey
  else
    match memSet g.aliases st normalized ref enabled with
    | Except.error e =>
        Except.error (wrapExternal e TextCodeStoreWriteFailed "override store set failed")
    | Except.ok st1 => Except.ok st1

/-- Gate.unsetAliases from resolver/resolver.go: unset the ref at
every alias key, stopping at the first error. -/
def unsetAliasLoop (A : AliasTable) (ref : ScopeRef) :
    MemoryStore → List String → MemoryStore × Option GoError
  | st, [] => (st, none)
  | st, a :: rest =>
    match memUnset A st a ref with
    | Except.error e => (st, some e)
    | Except.ok st1 => unsetAliasLoop A ref st1 rest

/-- Gate.Unset from resolver/resolver.go, for a Gate whose writer is
the MemoryStore: write the unset tombstone at the normalized key, then
replicate the unset to every alias; returns the store after all writes
performed plus the returned error (an alias error is reported after
the cache and hook steps). -/
def gateUnsetMem (g : GateM) (st : MemoryStore) (key : String) (scopeRef : ScopeRef) :
    MemoryStore × Option GoError :=
  let trimmed := trimSpace key
  let normalized := NormalizeKey g.aliases trimmed
  let ref := normalizeScopeRef g scopeRef
  if normalized = "" then (st, some ErrInvalidKey)
  else
    match memUnset g.aliases st normalized ref with
    | Except.error e =>
        (st, some (wrapExternal e TextCodeStoreWriteFailed "override store unset failed"))
    | Except.ok st1 => unsetAliasLoop g.aliases ref st1 (AliasesFor g.aliases normalized)

/-- A strategy group is non-empty and yields a decision. -/
def decidesGroup (grp : GroupKind) (chain : ScopeChain) (ms : List OverrideMatch) : Prop :=
  collectGroupMatches grp chain ms ≠ [] ∧
  (evaluateGroup grp (collectGroupMatches grp chain ms)).1.matched = true

instance (grp : GroupKind) (chain : ScopeChain) (ms : List OverrideMatch) :
    Decidable (decidesGroup grp chain ms) := by
  unfold decidesGroup; infer_instance

theorem mem_of_collectGroupMatches {grp : GroupKind} {chain : ScopeChain}
    {ms : List OverrideMatch} {m : OverrideMatch}
    (h : m ∈ collectGroupMatches grp chain ms) : m ∈ ms := by
  unfold collectGroupMatches at h
  rw [List.mem_filterMap] at h
  obtain ⟨ref, _, h2⟩ := h
  by_cases hg : scopeKindInGroup ref.kind grp = true
  · rw [if_pos hg] at h2
    unfold matchMapLookup at h2
    have hmem := List.mem_of_find?_eq_some h2
    exact List.mem_reverse.mp hmem
  · rw [if_neg hg] at h2
    exact absurd h2 (Option.noConfusion)

theorem strategyLoop_cons_skip {chain : ScopeChain} {ms : List OverrideMatch}
    {grp : GroupKind} {rest : List GroupKind}
    (h : ¬ decidesGroup grp chain ms) :
    strategyLoop chain ms (grp :: rest) = strategyLoop chain ms rest := by
  unfold decidesGroup at h
  push_neg at h
  show (let gm := collectGroupMatches grp chain ms
    if gm.isEmpty then strategyLoop chain ms rest
    else
      let r := evaluateGroup grp gm
      if r.1.matched then some r else strategyLoop chain ms rest) = _
  by_cases hgm : collectGroupMatches grp chain ms = []
  · simp [hgm]
  · have hm := h hgm
    simp only [List.isEmpty_iff, hgm, if_false, if_neg hm]

theorem strategyLoop_cons_decide {chain : ScopeChain} {ms : List OverrideMatch}
    {grp : GroupKind} {rest : List GroupKind}
    (h : decidesGroup grp chain ms) :
    strategyLoop chain ms (grp :: rest) =
      some (evaluateGroup grp (collectGroupMatches grp chain ms)) := by
  obtain ⟨h1, h2⟩ := h
  show (let gm := collectGroupMatches grp chain ms
    if gm.isEmpty then strategyLoop chain ms rest
    else
      let r := evaluateGroup grp gm
      if r.1.matched then some r else strategyLoop chain ms rest) = _
  simp only [List.isEmpty_iff, h1, if_false, h2, if_true]

theorem strategyLoop_none {chain : ScopeChain} {ms : List OverrideMatch}
    {order : List GroupKind}
    (h : ∀ grp ∈ order, ¬ decidesGroup grp chain ms) :
    strategyLoop chain ms order = none := by
  induction order with
  | nil => rfl
  | cons grp rest ih =>
    rw [strategyLoop_cons_skip (h grp (List.mem_cons_self grp rest))]
    exact ih (fun g' hg' => h g' (List.mem_cons_of_mem grp hg'))

theorem strategyLoop_firstDecide {chain : ScopeChain} {ms : List OverrideMatch}
    {pre post : List GroupKind} {grp : GroupKind}
    (hpre : ∀ g' ∈ pre, ¬ decidesGroup g' chain ms)
    (hgrp : decidesGroup grp chain ms) :
    strategyLoop chain ms (pre ++ grp :: post) =
      some (evaluateGroup grp (collectGroupMatches grp chain ms)) := by
  induction pre with
  | nil => exact strategyLoop_cons_decide hgrp
  | cons g' rest ih =>
    rw [List.cons_append, strategyLoop_cons_skip (hpre g' (List.mem_cons_self g' rest))]
    exact ih (fun x hx => hpre x (List.mem_cons_of_mem g' hx))

theorem evaluateGroup_rolePerm_of_disabled {ms : List OverrideMatch}
    (h : ∃ m ∈ ms, m.override.state = OverrideStateDisabled) :
    (evaluateGroup groupRolePerm ms).1.matched = true ∧
    (evaluateGroup groupRolePerm ms).1.value = false ∧
    ∃ m ∈ ms, m.override.state = OverrideStateDisabled ∧
      (evaluateGroup groupRolePerm ms).1.matchRef = m.scope := by
  have hfind : (ms.find? (fun m => m.override.state == OverrideStateDisabled)).isSome := by
    rw [List.find?_isSome]
    obtain ⟨m, hm, hs⟩ := h
    exact ⟨m, hm, by simp [hs]⟩
  obtain ⟨m₀, hm₀⟩ := Option.isSome_iff_exists.mp hfind
  have hmem := List.mem_of_find?_eq_some hm₀
  have hstate : m₀.override.state = OverrideStateDisabled := by
    have := List.find?_some hm₀
    simpa using this
  unfold evaluateGroup
  simp only [if_pos rfl, hm₀]
  exact ⟨rfl, rfl, m₀, hmem, hstate, rfl⟩

/-- C1: in the default resolution strategy, when the role_perm group
is the first group to yield a decision and its collected matches hold
both a disabled and an enabled override, the decision is disabled
(false) and is evidenced by a disabled match, for every key, chain,
match set and match order. -/
theorem role_perm_disabled_wins (so : List ScopeKind) (chain : ScopeChain)
    (ms : List OverrideMatch) (pre post : List GroupKind)
    (horder : groupOrderFor so = pre ++ groupRolePerm :: post)
    (hpre : ∀ g' ∈ pre, ¬ decidesGroup g' chain ms)
    (hdis : ∃ m ∈ collectGroupMatches groupRolePerm chain ms,
      m.override.state = OverrideStateDisabled)
    (hen : ∃ m ∈ collectGroupMatches groupRolePerm chain ms,
      m.override.state = OverrideStateEnabled) :
    (defaultResolveStrategy chain ms ⟨so⟩).1.matched = true ∧
    (defaultResolveStrategy chain ms ⟨so⟩).1.value = false ∧
    ∃ m ∈ collectGroupMatches groupRolePerm chain ms,
      m.override.state = OverrideStateDisabled ∧
      (defaultResolveStrategy chain ms ⟨so⟩).1.matchRef = m.scope := by
  obtain ⟨md, hmdmem, hmdstate⟩ := hdis
  have heval := evaluateGroup_rolePerm_of_disabled ⟨md, hmdmem, hmdstate⟩
  have hmsne : ms ≠ [] := List.ne_nil_of_mem (mem_of_collectGroupMatches hmdmem)
  have hdecides : decidesGroup groupRolePerm chain ms :=
    ⟨List.ne_nil_of_mem hmdmem, heval.1⟩
  have hloop := @strategyLoop_firstDecide chain ms pre post groupRolePerm hpre hdecides
  unfold defaultResolveStrategy
  rw [if_neg (by simpa [List.isEmpty_iff] using hmsne)]
  rw [horder, hloop]
  exact ⟨heval.1, heval.2.1, heval.2.2⟩

/-- Witness for C1: spec scenario C — roles beta-tester (enabled) and
admin-block (disabled) resolve to false with the disabled match as
evidence, whichever order the matches arrive in. -/
theorem role_perm_disabled_wins_witness :
    (defaultResolveStrategy
      [⟨ScopeKind.role, "beta-tester", "", ""⟩, ⟨ScopeKind.role, "admin-block", "", ""⟩]
      [⟨⟨ScopeKind.role, "beta-tester", "", ""⟩, EnabledOverride⟩,
       ⟨⟨ScopeKind.role, "admin-block", "", ""⟩, DisabledOverride⟩]
      ⟨defaultScopeOrder⟩).1.matched = true ∧
    (defaultResolveStrategy
      [⟨ScopeKind.role, "beta-tester", "", ""⟩, ⟨ScopeKind.role, "admin-block", "", ""⟩]
      [⟨⟨ScopeKind.role, "beta-tester", "", ""⟩, EnabledOverride⟩,
       ⟨⟨ScopeKind.role, "admin-block", "", ""⟩, DisabledOverride⟩]
      ⟨defaultScopeOrder⟩).1.value = false := by
  have h := role_perm_disabled_wins defaultScopeOrder
    [⟨ScopeKind.role, "beta-tester", "", ""⟩, ⟨ScopeKind.role, "admin-block", "", ""⟩]
    [⟨⟨ScopeKind.role, "beta-tester", "", ""⟩, EnabledOverride⟩,
     ⟨⟨ScopeKind.role, "admin-block", "", ""⟩, DisabledOverride⟩]
    [groupUser] [groupOrg, groupTenant, groupSystem]
    (by decide) (by decide) (by decide) (by decide)
  exact ⟨h.1, h.2.1⟩

/-- The chain used by the counterexample to C2. -/
def chainTwoLevel : ScopeChain :=
  [⟨ScopeKind.user, "u1", "", ""⟩, ⟨ScopeKind.tenant, "t1", "t1", ""⟩]

/-- The matches used by the counterexample to C2: the user match is
explicitly unset, the tenant match is enabled. -/
def msUnsetThenEnabled : List OverrideMatch :=
  [⟨⟨ScopeKind.user, "u1", "", ""⟩, UnsetOverride⟩,
   ⟨⟨ScopeKind.tenant, "t1", "t1", ""⟩, EnabledOverride⟩]

/-- Counterexample to C2: with the default group order, the user group
is the first non-empty group and yields no decision (its only match is
unset), yet the strategy does not return "not matched" — it goes on to
the tenant group and decides enabled. -/
theorem strategy_does_not_stop_at_first_nonempty_group :
    groupOrderFor defaultScopeOrder =
      [groupUser, groupRolePerm, groupOrg, groupTenant, groupSystem] ∧
    collectGroupMatches groupUser chainTwoLevel msUnsetThenEnabled ≠ [] ∧
    (evaluateGroup groupUser
      (collectGroupMatches groupUser chainTwoLevel msUnsetThenEnabled)).1.matched = false ∧
    (defaultResolveStrategy chainTwoLevel msUnsetThenEnabled ⟨defaultScopeOrder⟩).1.matched
      = true ∧
    (defaultResolveStrategy chainTwoLevel msUnsetThenEnabled ⟨defaultScopeOrder⟩).1.value
      = true := by
  decide

/-- C2 (amended): the default strategy evaluates the groups in
configured order and returns the decision of the first group that
yields one; a non-empty group whose matches yield no decision (for
example all unset) is passed over and later groups are still
consulted; only when no group yields a decision does the strategy
return "not matched". -/
theorem strategy_returns_first_group_decision (so : List ScopeKind)
    (chain : ScopeChain) (ms : List OverrideMatch) :
    ((∀ grp ∈ groupOrderFor so, ¬ decidesGroup grp chain ms) →
      (defaultResolveStrategy chain ms ⟨so⟩).1.matched = false) ∧
    (∀ pre grp post, groupOrderFor so = pre ++ grp :: post →
      (∀ g' ∈ pre, ¬ decidesGroup g' chain ms) →
      decidesGroup grp chain ms →
      (defaultResolveStrategy chain ms ⟨so⟩).1 =
        (evaluateGroup grp (collectGroupMatches grp chain ms)).1) := by
  constructor
  · intro h
    unfold defaultResolveStrategy
    by_cases hms : ms.isEmpty
    · rw [if_pos hms]
      rfl
    · rw [if_neg hms, strategyLoop_none h]
      rfl
  · intro pre grp post horder hpre hgrp
    have hmsne : ms ≠ [] := by
      obtain ⟨h1, _⟩ := hgrp
      obtain ⟨m, hm⟩ := List.exists_mem_of_ne_nil _ h1
      exact List.ne_nil_of_mem (mem_of_collectGroupMatches hm)
    unfold defaultResolveStrategy
    rw [if_neg (by simpa [List.isEmpty_iff] using hmsne)]
    rw [horder, strategyLoop_firstDecide hpre hgrp]

/-- Witness for the amended C2 at the counterexample input: the tenant
group is the first deciding group and its decision (enabled) is the
strategy result. -/
theorem strategy_returns_first_group_decision_witness :
    (defaultResolveStrategy chainTwoLevel msUnsetThenEnabled ⟨defaultScopeOrder⟩).1 =
      (evaluateGroup groupTenant
        (collectGroupMatches groupTenant chainTwoLevel msUnsetThenEnabled)).1 :=
  (strategy_returns_first_group_decision defaultScopeOrder chainTwoLevel
      msUnsetThenEnabled).2
    [groupUser, groupRolePerm, groupOrg] groupTenant [groupSystem]
    (by decide) (by decide) (by decide)

theorem defaultsPhase_of_ok {g : GateM} {normalized : String} {chain : ScopeChain}
    {trace : ResolveTrace} {storeErr : Option GoError} {dr : DefaultResult}
    (hdef : g.defaults normalized = Except.ok dr) :
    (defaultsPhase g normalized chain trace storeErr).value
        = (if dr.set then dr.value else false) ∧
    (defaultsPhase g normalized chain trace storeErr).trace.source
        = (if dr.set then ResolveSourceDefault else ResolveSourceFallback) ∧
    (defaultsPhase g normalized chain trace storeErr).error = none := by
  unfold defaultsPhase
  rw [hdef]
  by_cases hs : dr.set <;> simp [hs]

theorem defaultsPhase_error_implies_false {g : GateM} {normalized : String}
    {chain : ScopeChain} {trace : ResolveTrace} {storeErr : Option GoError}
    (h : (defaultsPhase g normalized chain trace storeErr).error ≠ none) :
    (defaultsPhase g normalized chain trace storeErr).value = false := by
  unfold defaultsPhase at h ⊢
  cases hdef : g.defaults normalized with
  | error e => simp [hdef]
  | ok res =>
    exfalso
    apply h
    rw [hdef]

theorem defaultsPhase_trace_chain {g : GateM} {normalized : String}
    {chain : ScopeChain} {trace : ResolveTrace} {storeErr : Option GoError} :
    (defaultsPhase g normalized chain trace storeErr).trace.chain = trace.chain := by
  unfold defaultsPhase
  cases hdef : g.defaults normalized with
  | error e => simp
  | ok res => by_cases hs : res.set <;> simp [hs]

theorem defaultsPhase_trace_override {g : GateM} {normalized : String}
    {chain : ScopeChain} {trace : ResolveTrace} {storeErr : Option GoError} :
    (defaultsPhase g normalized chain trace storeErr).trace.override = trace.override := by
  unfold defaultsPhase
  cases hdef : g.defaults normalized with
  | error e => simp
  | ok res => by_cases hs : res.set <;> simp [hs]

theorem defaultsPhase_cacheWrite_of_storeErr {g : GateM} {normalized : String}
    {chain : ScopeChain} {trace : ResolveTrace} {w : GoError}
    : (defaultsPhase g normalized chain trace (some w)).cacheWrite = none := by
  unfold defaultsPhase
  cases hdef : g.defaults normalized with
  | error e => simp
  | ok res => by_cases hs : res.set <;> simp [hs, writeCacheM]

/-- C8: whenever resolve returns a non-nil error, the returned value
is false — for every gate configuration, key, and optional explicit
chain. -/
theorem resolve_error_implies_false (g : GateM) (key : String)
    (chainOpt : Option ScopeChain)
    (h : (resolve g key chainOpt).error ≠ none) :
    (resolve g key chainOpt).value = false := by
  by_cases hn : NormalizeKey g.aliases (trimSpace key) = ""
  · simp [resolve, hn]
  · cases hc : resolveChainM g chainOpt with
    | error e0 => simp [resolve, hn, hc]
    | ok chain =>
      cases hcache : g.cacheGet (NormalizeKey g.aliases (trimSpace key)) chain with
      | some entry =>
        exfalso
        apply h
        simp [resolve, hn, hc, hcache]
      | none =>
        cases hov : g.overrides with
        | none =>
          have hr : resolve g key chainOpt
              = defaultsPhase g (NormalizeKey g.aliases (trimSpace key)) chain
                { emptyResolveTrace with
                    key := trimSpace key
                    normalizedKey := NormalizeKey g.aliases (trimSpace key)
                    chain := chain
                    claimsFailureMode := g.failureMode
                    override := { emptyOverrideTrace with state := OverrideStateMissing } }
                none := by
            simp [resolve, hn, hc, hcache, hov]
            rfl
          rw [hr] at h ⊢
          exact defaultsPhase_error_implies_false h
        | some getAll =>
          cases hres : resolveOverridesM g getAll
              (NormalizeKey g.aliases (trimSpace key)) chain with
          | error e1 =>
            by_cases hstrict : g.strictStore
            · simp [resolve, hn, hc, hcache, hov, hres, hstrict]
            · have hr : resolve g key chainOpt
                  = defaultsPhase g (NormalizeKey g.aliases (trimSpace key)) chain
                    { emptyResolveTrace with
                        key := trimSpace key
                        normalizedKey := NormalizeKey g.aliases (trimSpace key)
                        chain := chain
                        claimsFailureMode := g.failureMode
                        override := { emptyOverrideTrace with
                          error := some (wrapExternal e1 TextCodeStoreReadFailed
                            "override store read failed") } }
                    (some (wrapExternal e1 TextCodeStoreReadFailed
                      "override store read failed")) := by
                simp [resolve, hn, hc, hcache, hov, hres, hstrict]
                rfl
              rw [hr] at h ⊢
              exact defaultsPhase_error_implies_false h
          | ok r =>
            obtain ⟨decision, otrace⟩ := r
            by_cases hm : decision.matched
            · exfalso
              apply h
              simp [resolve, hn, hc, hcache, hov, hres, hm]
            · have hr : resolve g key chainOpt
                  = defaultsPhase g (NormalizeKey g.aliases (trimSpace key)) chain
                    { emptyResolveTrace with
                        key := trimSpace key
                        normalizedKey := NormalizeKey g.aliases (trimSpace key)
                        chain := chain
                        claimsFailureMode := g.failureMode
                        override := otrace.override
                        strategy := otrace.strategy }
                    none := by
                simp [resolve, hn, hc, hcache, hov, hres, hm]
              rw [hr] at h ⊢
              exact defaultsPhase_error_implies_false h

/-- Witness for C8: an empty key produces a non-nil error and value
false. -/
theorem resolve_error_implies_false_witness :
    (resolve
      ⟨[], fun _ => Except.ok ⟨false, false⟩, none, Except.ok ⟨"", "", "", [], []⟩, none,
       fun _ _ => none, false, defaultScopeOrder, FailOpen, [], true, false, false,
       defaultRolePermNormalizer⟩ "" none).error ≠ none ∧
    (resolve
      ⟨[], fun _ => Except.ok ⟨false, false⟩, none, Except.ok ⟨"", "", "", [], []⟩, none,
       fun _ _ => none, false, defaultScopeOrder, FailOpen, [], true, false, false,
       defaultRolePermNormalizer⟩ "" none).value = false := by
  refine ⟨by decide, resolve_error_implies_false _ "" none (by decide)⟩

/-- The override phase of a resolve call reaches no decision: either
no store is configured, or resolveOverrides (primary key plus alias
retries) completes without error and without a match. -/
def noOverrideDecision (g : GateM) (nk : String) (chain : ScopeChain) : Prop :=
  g.overrides = none ∨
  ∃ getAll r, g.overrides = some getAll ∧
    resolveOverridesM g getAll nk chain = Except.ok r ∧ r.1.matched = false

/-- C5: for a valid key, a successfully derived chain and a cache
miss, when the override strategy yields no decision (aliases
included) and the defaults lookup succeeds, resolve returns the
default value with source `default` when a default is configured and
false with source `fallback` otherwise, with nil error. -/
theorem resolve_defaults_and_fallback (g : GateM) (key : String)
    (chainOpt : Option ScopeChain) (chain : ScopeChain) (dr : DefaultResult)
    (hn : NormalizeKey g.aliases (trimSpace key) ≠ "")
    (hc : resolveChainM g chainOpt = Except.ok chain)
    (hcache : g.cacheGet (NormalizeKey g.aliases (trimSpace key)) chain = none)
    (hnd : noOverrideDecision g (NormalizeKey g.aliases (trimSpace key)) chain)
    (hdef : g.defaults (NormalizeKey g.aliases (trimSpace key)) = Except.ok dr) :
    (resolve g key chainOpt).value = (if dr.set then dr.value else false) ∧
    (resolve g key chainOpt).trace.source
      = (if dr.set then ResolveSourceDefault else ResolveSourceFallback) ∧
    (resolve g key chainOpt).error = none := by
  rcases hnd with hov | ⟨getAll, r, hov, hres, hmat⟩
  · have hr : resolve g key chainOpt
        = defaultsPhase g (NormalizeKey g.aliases (trimSpace key)) chain
          { emptyResolveTrace with
              key := trimSpace key
              normalizedKey := NormalizeKey g.aliases (trimSpace key)
              chain := chain
              claimsFailureMode := g.failureMode
              override := { emptyOverrideTrace with state := OverrideStateMissing } }
          none := by
      simp [resolve, hn, hc, hcache, hov]
      rfl
    rw [hr]
    exact defaultsPhase_of_ok hdef
  · obtain ⟨decision, otrace⟩ := r
    simp only at hmat
    have hr : resolve g key chainOpt
        = defaultsPhase g (NormalizeKey g.aliases (trimSpace key)) chain
          { emptyResolveTrace with
              key := trimSpace key
              normalizedKey := NormalizeKey g.aliases (trimSpace key)
              chain := chain
              claimsFailureMode := g.failureMode
              override := otrace.override
              strategy := otrace.strategy }
          none := by
      simp [resolve, hn, hc, hcache, hov, hres, hmat]
    rw [hr]
    exact defaultsPhase_of_ok hdef

/-- A concrete gate used by the C5 witness: no store, no cache, one
configured default, claims for subject u1 in tenant acme. -/
def gateDefaultsDemo : GateM :=
  ⟨[], fun k => if k = "checkout.v2" then Except.ok ⟨true, true⟩ else Except.ok ⟨false, false⟩,
   none, Except.ok ⟨"u1", "acme", "", [], []⟩, none, fun _ _ => none, false,
   defaultScopeOrder, FailOpen, [], true, false, false, defaultRolePermNormalizer⟩

/-- Witness for C5: a gate with no store and a configured default
yields the default, and with no default yields false from fallback. -/
theorem resolve_defaults_and_fallback_witness :
    (resolve gateDefaultsDemo "checkout.v2" none).value = true ∧
    (resolve gateDefaultsDemo "other.key" none).value = false ∧
    (resolve gateDefaultsDemo "other.key" none).trace.source = ResolveSourceFallback := by
  refine ⟨?_, ?_, ?_⟩
  · have h := resolve_defaults_and_fallback gateDefaultsDemo "checkout.v2" none
      [⟨ScopeKind.user, "u1", "acme", ""⟩, ⟨ScopeKind.tenant, "acme", "acme", ""⟩,
       ⟨ScopeKind.system, "", "", ""⟩] ⟨true, true⟩
      (by decide) rfl rfl (Or.inl rfl) rfl
    simpa using h.1
  · have h := resolve_defaults_and_fallback gateDefaultsDemo "other.key" none
      [⟨ScopeKind.user, "u1", "acme", ""⟩, ⟨ScopeKind.tenant, "acme", "acme", ""⟩,
       ⟨ScopeKind.system, "", "", ""⟩] ⟨false, false⟩
      (by decide) rfl rfl (Or.inl rfl) rfl
    simpa using h.1
  · have h := resolve_defaults_and_fallback gateDefaultsDemo "other.key" none
      [⟨ScopeKind.user, "u1", "acme", ""⟩, ⟨ScopeKind.tenant, "acme", "acme", ""⟩,
       ⟨ScopeKind.system, "", "", ""⟩] ⟨false, false⟩
      (by decide) rfl rfl (Or.inl rfl) rfl
    simpa using h.2.1

/-- Claims derivation fails with error e: either the claims provider
itself errors, or it succeeds and the permission provider errors. -/
def claimsFailure (g : GateM) (e : GoError) : Prop :=
  g.claimsResult = Except.error e ∨
  ∃ claims provider, g.claimsResult = Except.ok claims ∧
    g.permissionProvider = some provider ∧ provider claims = Except.error e

theorem resolveChainM_of_claimsFailure_closed {g : GateM} {e : GoError}
    (hf : claimsFailure g e) (hm : g.failureMode = FailClosed) :
    resolveChainM g none = Except.error e := by
  rcases hf with hcl | ⟨claims, provider, hcl, hp, hpe⟩
  · simp [resolveChainM, hcl, hm]
  · simp [resolveChainM, hcl, hp, hpe, hm]

theorem resolveChainM_of_claimsFailure_open {g : GateM} {e : GoError}
    (hf : claimsFailure g e) (hm : g.failureMode = FailOpen)
    (ha : g.appendSystemOnFailure = true) :
    resolveChainM g none = Except.ok (appendSystemIfMissing g.failureFallbackChain) := by
  have hmc : ¬ g.failureMode = FailClosed := by
    rw [hm]; decide
  rcases hf with hcl | ⟨claims, provider, hcl, hp, hpe⟩
  · simp [resolveChainM, hcl, hmc, ha]
  · simp [resolveChainM, hcl, hp, hpe, hmc, ha]

theorem resolve_trace_chain {g : GateM} {key : String} {chainOpt : Option ScopeChain}
    {chain : ScopeChain}
    (hn : NormalizeKey g.aliases (trimSpace key) ≠ "")
    (hc : resolveChainM g chainOpt = Except.ok chain) :
    (resolve g key chainOpt).trace.chain = chain := by
  cases hcache : g.cacheGet (NormalizeKey g.aliases (trimSpace key)) chain with
  | some entry => simp [resolve, hn, hc, hcache]
  | none =>
    cases hov : g.overrides with
    | none =>
      simp [resolve, hn, hc, hcache, hov, defaultsPhase_trace_chain]
    | some getAll =>
      cases hres : resolveOverridesM g getAll
          (NormalizeKey g.aliases (trimSpace key)) chain with
      | error e1 =>
        by_cases hstrict : g.strictStore
        · simp [resolve, hn, hc, hcache, hov, hres, hstrict]
        · simp [resolve, hn, hc, hcache, hov, hres, hstrict, defaultsPhase_trace_chain]
      | ok r =>
        obtain ⟨decision, otrace⟩ := r
        by_cases hm : decision.matched
        · simp [resolve, hn, hc, hcache, hov, hres, hm]
        · simp [resolve, hn, hc, hcache, hov, hres, hm, defaultsPhase_trace_chain]

theorem resolve_error_none_of_benign {g : GateM} {key : String}
    {chainOpt : Option ScopeChain} {chain : ScopeChain} {dr : DefaultResult}
    (hn : NormalizeKey g.aliases (trimSpace key) ≠ "")
    (hc : resolveChainM g chainOpt = Except.ok chain)
    (hstrict : g.strictStore = false)
    (hdef : g.defaults (NormalizeKey g.aliases (trimSpace key)) = Except.ok dr) :
    (resolve g key chainOpt).error = none := by
  cases hcache : g.cacheGet (NormalizeKey g.aliases (trimSpace key)) chain with
  | some entry => simp [resolve, hn, hc, hcache]
  | none =>
    cases hov : g.overrides with
    | none =>
      simp [resolve, hn, hc, hcache, hov, (defaultsPhase_of_ok hdef).2.2]
    | some getAll =>
      cases hres : resolveOverridesM g getAll
          (NormalizeKey g.aliases (trimSpace key)) chain with
      | error e1 =>
        simp [resolve, hn, hc, hcache, hov, hres, hstrict,
          (defaultsPhase_of_ok hdef).2.2]
      | ok r =>
        obtain ⟨decision, otrace⟩ := r
        by_cases hm : decision.matched
        · simp [resolve, hn, hc, hcache, hov, hres, hm]
        · simp [resolve, hn, hc, hcache, hov, hres, hm,
            (defaultsPhase_of_ok hdef).2.2]

/-- C6: claims/permission derivation failure on a resolve call with no
explicit chain.  Fail-closed: the call returns false with the wrapped
error, writes nothing to the cache, and its outcome is independent of
the store, defaults, and cache collaborators.  Fail-open with the
default append-system setting: the call resolves over the configured
fallback chain with the system scope appended, and (with a
non-strict store and a successful defaults lookup) returns a nil
error. -/
theorem claims_failure_modes (g : GateM) (key : String) (e : GoError)
    (hn : NormalizeKey g.aliases (trimSpace key) ≠ "")
    (hf : claimsFailure g e) :
    (g.failureMode = FailClosed →
      (resolve g key none).value = false ∧
      (resolve g key none).error
        = some (wrapExternal e TextCodeScopeResolveFailed "claims resolution failed") ∧
      (resolve g key none).cacheWrite = none ∧
      ∀ d o c, resolve { g with defaults := d, overrides := o, cacheGet := c } key none
          = resolve g key none) ∧
    (g.failureMode = FailOpen → g.appendSystemOnFailure = true →
      (resolve g key none).trace.chain = appendSystemIfMissing g.failureFallbackChain ∧
      (g.strictStore = false →
        ∀ dr, g.defaults (NormalizeKey g.aliases (trimSpace key)) = Except.ok dr →
          (resolve g key none).error = none)) := by
  constructor
  · intro hm
    have hc := resolveChainM_of_claimsFailure_closed hf hm
    refine ⟨?_, ?_, ?_, ?_⟩
    · simp [resolve, hn, hc]
    · simp [resolve, hn, hc]
    · simp [resolve, hn, hc]
    · intro d o c
      have hf2 : claimsFailure { g with defaults := d, overrides := o, cacheGet := c } e := hf
      have hc2 := resolveChainM_of_claimsFailure_closed hf2 hm
      simp [resolve, hn, hc, hc2]
  · intro hm ha
    have hc := resolveChainM_of_claimsFailure_open hf hm ha
    refine ⟨resolve_trace_chain hn hc, ?_⟩
    intro hstrict dr hdef
    exact resolve_error_none_of_benign hn hc hstrict hdef

/-- A claims provider failure used by the C6 witness. -/
def gateClaimsFailDemo : GateM :=
  ⟨[], fun _ => Except.ok ⟨true, true⟩, none, Except.error "claims boom", none,
   fun _ _ => none, false, defaultScopeOrder, FailOpen,
   [⟨ScopeKind.tenant, "acme", "acme", ""⟩], true, false, false,
   defaultRolePermNormalizer⟩

/-- Witness for C6: a fail-open gate whose claims provider errors
resolves over the fallback chain plus system with nil error; the same
gate switched to fail-closed returns false with an error. -/
theorem claims_failure_modes_witness :
    (resolve gateClaimsFailDemo "checkout.v2" none).error = none ∧
    (resolve gateClaimsFailDemo "checkout.v2" none).trace.chain
      = appendSystemIfMissing gateClaimsFailDemo.failureFallbackChain ∧
    (resolve { gateClaimsFailDemo with failureMode := FailClosed } "checkout.v2" none).value
      = false ∧
    (resolve { gateClaimsFailDemo with failureMode := FailClosed } "checkout.v2" none).error
      ≠ none := by
  have hopen := (claims_failure_modes gateClaimsFailDemo "checkout.v2" "claims boom"
    (by decide) (Or.inl rfl)).2 rfl rfl
  have hclosed := (claims_failure_modes
    { gateClaimsFailDemo with failureMode := FailClosed } "checkout.v2" "claims boom"
    (by decide) (Or.inl rfl)).1 rfl
  refine ⟨hopen.2 rfl ⟨true, true⟩ rfl, hopen.1, hclosed.1, ?_⟩
  rw [hclosed.2.1]
  simp

/-- C7: behaviour when the override store's GetAll errors on a resolve
call with a valid key, derived chain and cache miss.  Strict mode:
the call returns false with the wrapped store error and no cache
write.  Permissive mode: the wrapped error is recorded in
trace.Override.Error, resolution proceeds to defaults (default value
with source `default` when configured, false with source `fallback`
otherwise, nil error), and the result is not written to the cache. -/
theorem store_error_modes (g : GateM) (key : String) (chainOpt : Option ScopeChain)
    (chain : ScopeChain)
    (getAll : String → ScopeChain → Except GoError (List OverrideMatch)) (e : GoError)
    (hn : NormalizeKey g.aliases (trimSpace key) ≠ "")
    (hc : resolveChainM g chainOpt = Except.ok chain)
    (hcache : g.cacheGet (NormalizeKey g.aliases (trimSpace key)) chain = none)
    (hov : g.overrides = some getAll)
    (herr : resolveOverridesM g getAll (NormalizeKey g.aliases (trimSpace key)) chain
      = Except.error e) :
    (g.strictStore = true →
      (resolve g key chainOpt).value = false ∧
      (resolve g key chainOpt).error
        = some (wrapExternal e TextCodeStoreReadFailed "override store read failed") ∧
      (resolve g key chainOpt).cacheWrite = none) ∧
    (g.strictStore = false →
      (resolve g key chainOpt).trace.override.error
        = some (wrapExternal e TextCodeStoreReadFailed "override store read failed") ∧
      (resolve g key chainOpt).cacheWrite = none ∧
      ∀ dr, g.defaults (NormalizeKey g.aliases (trimSpace key)) = Except.ok dr →
        (resolve g key chainOpt).value = (if dr.set then dr.value else false) ∧
        (resolve g key chainOpt).trace.source
          = (if dr.set then ResolveSourceDefault else ResolveSourceFallback) ∧
        (resolve g key chainOpt).error = none) := by
  constructor
  · intro hstrict
    refine ⟨?_, ?_, ?_⟩ <;> simp [resolve, hn, hc, hcache, hov, herr, hstrict]
  · intro hstrict
    have hr : resolve g key chainOpt
        = defaultsPhase g (NormalizeKey g.aliases (trimSpace key)) chain
          { emptyResolveTrace with
              key := trimSpace key
              normalizedKey := NormalizeKey g.aliases (trimSpace key)
              chain := chain
              claimsFailureMode := g.failureMode
              override := { emptyOverrideTrace with
                error := some (wrapExternal e TextCodeStoreReadFailed
                  "override store read failed") } }
          (some (wrapExternal e TextCodeStoreReadFailed
            "override store read failed")) := by
      simp only [resolve, hn, hc, hcache, hov, herr]
      simp only [hstrict, Bool.false_eq_true, if_false]
      rfl
    rw [hr]
    refine ⟨?_, defaultsPhase_cacheWrite_of_storeErr, ?_⟩
    · rw [defaultsPhase_trace_override]
    · intro dr hdef
      exact defaultsPhase_of_ok hdef

/-- A gate whose store reader always errors, used by the C7 witness. -/
def gateStoreErrDemo : GateM :=
  ⟨[], fun _ => Except.ok ⟨true, true⟩, some (fun _ _ => Except.error "store down"),
   Except.ok ⟨"u1", "", "", [], []⟩, none, fun _ _ => none, false, defaultScopeOrder,
   FailOpen, [], true, false, false, defaultRolePermNormalizer⟩

/-- Witness for C7: permissive mode falls back to the configured
default with a nil error and no cache write; the same gate in strict
mode returns false with an error. -/
theorem store_error_modes_witness :
    (resolve gateStoreErrDemo "users.signup" none).value = true ∧
    (resolve gateStoreErrDemo "users.signup" none).error = none ∧
    (resolve gateStoreErrDemo "users.signup" none).cacheWrite = none ∧
    (resolve { gateStoreErrDemo with strictStore := true } "users.signup" none).value
      = false ∧
    (resolve { gateStoreErrDemo with strictStore := true } "users.signup" none).error
      ≠ none := by
  have hperm := (store_error_modes gateStoreErrDemo "users.signup" none
    [⟨ScopeKind.user, "u1", "", ""⟩, ⟨ScopeKind.system, "", "", ""⟩]
    (fun _ _ => Except.error "store down") "store down"
    (by decide) rfl rfl rfl rfl).2 rfl
  have hstrict := (store_error_modes { gateStoreErrDemo with strictStore := true }
    "users.signup" none
    [⟨ScopeKind.user, "u1", "", ""⟩, ⟨ScopeKind.system, "", "", ""⟩]
    (fun _ _ => Except.error "store down") "store down"
    (by decide) rfl rfl rfl rfl).1 rfl
  obtain ⟨hval, hsrc, herrn⟩ := hperm.2.2 ⟨true, true⟩ rfl
  refine ⟨by simpa using hval, herrn, hperm.2.1, hstrict.1, ?_⟩
  rw [hstrict.2.1]
  simp

theorem alLookup_alInsert_self {κ α : Type} [DecidableEq κ]
    (l : List (κ × α)) (k : κ) (v : α) :
    alLookup (alInsert l k v) k = some v := by
  induction l with
  | nil => simp [alInsert, alLookup]
  | cons p rest ih =>
    obtain ⟨k', v'⟩ := p
    by_cases h : k' = k
    · simp [alInsert, alLookup, h]
    · simp [alInsert, alLookup, h, ih]

theorem alLookup_alInsert_ne {κ α : Type} [DecidableEq κ]
    (l : List (κ × α)) (k k2 : κ) (v : α) (h : k2 ≠ k) :
    alLookup (alInsert l k v) k2 = alLookup l k2 := by
  have hne : ¬ k = k2 := fun hh => h hh.symm
  induction l with
  | nil =>
    simp only [alInsert, alLookup]
    rw [if_neg hne]
  | cons p rest ih =>
    obtain ⟨k', v'⟩ := p
    by_cases hk : k' = k
    · subst hk
      simp only [alInsert, if_pos rfl, alLookup]
      rw [if_neg hne, if_neg hne]
    · simp only [alInsert, if_neg hk, alLookup]
      by_cases hk2 : k' = k2
      · rw [if_pos hk2, if_pos hk2]
      · rw [if_neg hk2, if_neg hk2, ih]

/-- The alias table used by the alias-behaviour counterexample: the
historic go-featuregate table mapping users.self_registration to
users.signup. -/
def aliasDemoTable : AliasTable := [("users.self_registration", "users.signup")]

/-- A gate configured with the demo alias table and a memory-store
writer. -/
def gateAliasDemo : GateM :=
  ⟨aliasDemoTable, fun _ => Except.ok ⟨false, false⟩, none, Except.ok ⟨"", "", "", [], []⟩,
   none, fun _ _ => none, false, defaultScopeOrder, FailOpen, [], true, false, false,
   defaultRolePermNormalizer⟩

/-- Counterexample to C3: with one legacy alias configured for
users.signup, a successful Set of users.signup writes the override at
the canonical key only — the alias key holds no record afterwards, so
Set does not replicate the write to aliases. -/
theorem set_does_not_replicate_to_aliases :
    AliasesFor gateAliasDemo.aliases "users.signup" = ["users.self_registration"] ∧
    (gateSetMem gateAliasDemo [] "users.signup" zeroScopeRef true).map
      (fun st => alLookup st "users.self_registration") = Except.ok none ∧
    (gateSetMem gateAliasDemo [] "users.signup" zeroScopeRef true).map
      (fun st => alLookup ((alLookup st "users.signup").getD [])
        (scopeKeyFromRef zeroScopeRef)) = Except.ok (some EnabledOverride) := by
  refine ⟨by decide, rfl, rfl⟩

/-- C3 (amended): a successful Set writes the enabled/disabled
override at exactly the one (normalized) scope ref for the normalized
key and touches nothing else: every other scope ref of that key and
every other key — in particular every legacy alias — is unchanged.
Set performs no alias replication (only Unset replicates, writing the
unset tombstone). -/
theorem gateSet_writes_point_only (g : GateM) (st : MemoryStore) (key : String)
    (s : ScopeRef) (v : Bool) (st' : MemoryStore) (nk : String)
    (hnk : NormalizeKey g.aliases (trimSpace key) = nk)
    (hfix : storeNormalizeKey g.aliases nk = Except.ok nk)
    (hres : gateSetMem g st key s v = Except.ok st') :
    alLookup ((alLookup st' nk).getD []) (scopeKeyFromRef (normalizeScopeRef g s))
      = some (if v then EnabledOverride else DisabledOverride) ∧
    (∀ sk2, sk2 ≠ scopeKeyFromRef (normalizeScopeRef g s) →
      alLookup ((alLookup st' nk).getD []) sk2
        = alLookup ((alLookup st nk).getD []) sk2) ∧
    (∀ k2, k2 ≠ nk → alLookup st' k2 = alLookup st k2) := by
  simp only [gateSetMem] at hres
  rw [hnk] at hres
  by_cases hne : nk = ""
  · rw [if_pos hne] at hres
    exact absurd hres (by simp)
  · rw [if_neg hne] at hres
    unfold memSet at hres
    rw [hfix] at hres
    simp only [Except.ok.injEq] at hres
    subst hres
    refine ⟨?_, ?_, ?_⟩
    · rw [alLookup_alInsert_self]
      simp only [Option.getD_some]
      rw [alLookup_alInsert_self]
    · intro sk2 hsk2
      rw [alLookup_alInsert_self]
      simp only [Option.getD_some]
      rw [alLookup_alInsert_ne _ _ _ _ hsk2]
    · intro k2 hk2
      rw [alLookup_alInsert_ne _ _ _ _ hk2]

/-- Witness for the amended C3: a concrete Set writes the single point
record and leaves another key and another scope ref untouched. -/
theorem gateSet_writes_point_only_witness :
    (gateSetMem gateAliasDemo [] "users.signup" zeroScopeRef true
        = Except.ok [("users.signup", [(scopeKeyFromRef zeroScopeRef, EnabledOverride)])]) ∧
    alLookup (((alLookup
        [("users.signup", [(scopeKeyFromRef zeroScopeRef, EnabledOverride)])]
        "users.signup").getD []))
      (scopeKeyFromRef (normalizeScopeRef gateAliasDemo zeroScopeRef))
      = some EnabledOverride ∧
    alLookup [("users.signup", [(scopeKeyFromRef zeroScopeRef, EnabledOverride)])]
      "users.self_registration" = none := by
  have h := gateSet_writes_point_only gateAliasDemo [] "users.signup" zeroScopeRef true
    [("users.signup", [(scopeKeyFromRef zeroScopeRef, EnabledOverride)])]
    "users.signup" rfl rfl rfl
  refine ⟨rfl, ?_, by decide⟩
  simpa using h.1

/-- C10: Set and Unset normalize the supplied scope ref before
writing — trimming ID, TenantID and OrgID and normalizing the ID of
role/perm refs through the configured normalizer — so two role/perm
refs that differ only by letter case or surrounding whitespace
normalize identically and every mutation through them produces the
identical store. -/
theorem mutation_normalizes_scope_ref (g : GateM) (r₁ r₂ : ScopeRef)
    (hnorm : g.rolePermNormalizer = defaultRolePermNormalizer)
    (hkind : r₁.kind = r₂.kind)
    (hrp : r₁.kind = ScopeKind.role ∨ r₁.kind = ScopeKind.perm)
    (hid : defaultRolePermNormalizer (trimSpace r₁.id)
      = defaultRolePermNormalizer (trimSpace r₂.id))
    (ht : trimSpace r₁.tenantID = trimSpace r₂.tenantID)
    (ho : trimSpace r₁.orgID = trimSpace r₂.orgID) :
    normalizeScopeRef g r₁
      = ⟨r₁.kind, g.rolePermNormalizer (trimSpace r₁.id),
         trimSpace r₁.tenantID, trimSpace r₁.orgID⟩ ∧
    normalizeScopeRef g r₁ = normalizeScopeRef g r₂ ∧
    (∀ st key v, gateSetMem g st key r₁ v = gateSetMem g st key r₂ v) ∧
    (∀ st key, gateUnsetMem g st key r₁ = gateUnsetMem g st key r₂) := by
  have hshape : ∀ r : ScopeRef, (r.kind = ScopeKind.role ∨ r.kind = ScopeKind.perm) →
      normalizeScopeRef g r
        = ⟨r.kind, g.rolePermNormalizer (trimSpace r.id),
           trimSpace r.tenantID, trimSpace r.orgID⟩ := by
    intro r hr
    unfold normalizeScopeRef
    rcases hr with hr | hr <;> simp [hr]
  have h1 := hshape r₁ hrp
  have h2 := hshape r₂ (by rw [← hkind]; exact hrp)
  have heq : normalizeScopeRef g r₁ = normalizeScopeRef g r₂ := by
    rw [h1, h2, hkind, hnorm, hid, ht, ho]
  refine ⟨h1, heq, ?_, ?_⟩
  · intro st key v
    unfold gateSetMem
    rw [heq]
  · intro st key
    unfold gateUnsetMem
    rw [heq]

/-- Witness for C10: a role ref written as " Beta-Tester " in a tenant
with padded identifiers normalizes identically to the claims-style ref
beta-tester, and mutations through either are the same. -/
theorem mutation_normalizes_scope_ref_witness :
    normalizeScopeRef gateAliasDemo ⟨ScopeKind.role, " Beta-Tester ", " acme", ""⟩
      = normalizeScopeRef gateAliasDemo ⟨ScopeKind.role, "beta-tester", "acme", ""⟩ ∧
    gateSetMem gateAliasDemo [] "users.signup"
        ⟨ScopeKind.role, " Beta-Tester ", " acme", ""⟩ true
      = gateSetMem gateAliasDemo [] "users.signup"
        ⟨ScopeKind.role, "beta-tester", "acme", ""⟩ true := by
  have h := mutation_normalizes_scope_ref gateAliasDemo
    ⟨ScopeKind.role, " Beta-Tester ", " acme", ""⟩
    ⟨ScopeKind.role, "beta-tester", "acme", ""⟩
    rfl rfl (Or.inl rfl) (by decide) (by decide) (by decide)
  exact ⟨h.2.1, h.2.2.1 [] "users.signup" true⟩

theorem evaluateGroup_all_enabled (grp : GroupKind) (ms : List OverrideMatch)
    (hne : ms ≠ [])
    (hall : ∀ m ∈ ms, m.override.state = OverrideStateEnabled) :
    (evaluateGroup grp ms).1.matched = true ∧ (evaluateGroup grp ms).1.value = true := by
  obtain ⟨m₀, t, rfl⟩ : ∃ m t, ms = m :: t := by
    cases ms with
    | nil => exact absurd rfl hne
    | cons m t => exact ⟨m, t, rfl⟩
  have h₀ := hall m₀ (List.mem_cons_self m₀ t)
  have hd : (m₀ :: t).find? (fun m => m.override.state == OverrideStateDisabled) = none := by
    rw [List.find?_eq_none]
    intro x hx
    simp [hall x hx, OverrideStateEnabled, OverrideStateDisabled]
  have he : (m₀ :: t).find? (fun m => m.override.state == OverrideStateEnabled) = some m₀ :=
    List.find?_cons_of_pos _ (by simp [h₀])
  have hc : (m₀ :: t).find? (fun m =>
      m.override.state == OverrideStateEnabled
        || m.override.state == OverrideStateDisabled) = some m₀ :=
    List.find?_cons_of_pos _ (by simp [h₀])
  unfold evaluateGroup
  by_cases hg : grp = groupRolePerm
  · rw [if_pos hg, hd, he]
    exact ⟨rfl, rfl⟩
  · rw [if_neg hg, hc]
    refine ⟨?_, ?_⟩ <;> simp [h₀]

theorem evaluateGroup_no_value (grp : GroupKind) (ms : List OverrideMatch)
    (hall : ∀ m ∈ ms, m.override.state ≠ OverrideStateEnabled ∧
      m.override.state ≠ OverrideStateDisabled) :
    (evaluateGroup grp ms).1.matched = false := by
  have hd : ms.find? (fun m => m.override.state == OverrideStateDisabled) = none := by
    rw [List.find?_eq_none]
    intro x hx
    simp [(hall x hx).2]
  have he : ms.find? (fun m => m.override.state == OverrideStateEnabled) = none := by
    rw [List.find?_eq_none]
    intro x hx
    simp [(hall x hx).1]
  have hc : ms.find? (fun m =>
      m.override.state == OverrideStateEnabled
        || m.override.state == OverrideStateDisabled) = none := by
    rw [List.find?_eq_none]
    intro x hx
    simp [(hall x hx).1, (hall x hx).2]
  unfold evaluateGroup
  by_cases hg : grp = groupRolePerm
  · rw [if_pos hg, hd, he]
    rfl
  · rw [if_neg hg, hc]
    rfl

theorem strategyLoop_all_enabled (chain : ScopeChain) (ms : List OverrideMatch)
    (hall : ∀ m ∈ ms, m.override.state = OverrideStateEnabled)
    (order : List GroupKind)
    (hcover : ∃ grp ∈ order, collectGroupMatches grp chain ms ≠ []) :
    ∃ r, strategyLoop chain ms order = some r ∧ r.1.matched = true ∧ r.1.value = true := by
  induction order with
  | nil => simp at hcover
  | cons grp rest ih =>
    by_cases hgm : collectGroupMatches grp chain ms = []
    · have hrest : ∃ g' ∈ rest, collectGroupMatches g' chain ms ≠ [] := by
        rcases hcover with ⟨g', hg', hne⟩
        rcases List.mem_cons.mp hg' with hg1 | hg2
        · exact absurd (hg1 ▸ hgm) hne
        · exact ⟨g', hg2, hne⟩
      obtain ⟨r, hr, h1, h2⟩ := ih hrest
      refine ⟨r, ?_, h1, h2⟩
      show (let gm := collectGroupMatches grp chain ms
        if gm.isEmpty then strategyLoop chain ms rest
        else
          let r := evaluateGroup grp gm
          if r.1.matched then some r else strategyLoop chain ms rest) = some r
      simp [hgm, hr]
    · have hsub : ∀ m ∈ collectGroupMatches grp chain ms,
          m.override.state = OverrideStateEnabled :=
        fun m hm => hall m (mem_of_collectGroupMatches hm)
      have heval := evaluateGroup_all_enabled grp _ hgm hsub
      refine ⟨evaluateGroup grp (collectGroupMatches grp chain ms), ?_, heval.1, heval.2⟩
      show (let gm := collectGroupMatches grp chain ms
        if gm.isEmpty then strategyLoop chain ms rest
        else
          let r := evaluateGroup grp gm
          if r.1.matched then some r else strategyLoop chain ms rest) = _
      simp only [List.isEmpty_iff, hgm, if_false, heval.1, if_true]

theorem defaultResolveStrategy_all_enabled (chain : ScopeChain)
    (ms : List OverrideMatch) (so : List ScopeKind)
    (hne : ms ≠ [])
    (hall : ∀ m ∈ ms, m.override.state = OverrideStateEnabled)
    (hcover : ∃ grp ∈ groupOrderFor so, collectGroupMatches grp chain ms ≠ []) :
    (defaultResolveStrategy chain ms ⟨so⟩).1.matched = true ∧
    (defaultResolveStrategy chain ms ⟨so⟩).1.value = true := by
  obtain ⟨r, hr, h1, h2⟩ := strategyLoop_all_enabled chain ms hall _ hcover
  obtain ⟨d, t⟩ := r
  unfold defaultResolveStrategy
  rw [if_neg (by simpa [List.isEmpty_iff] using hne), hr]
  exact ⟨h1, h2⟩

theorem defaultResolveStrategy_no_value (chain : ScopeChain)
    (ms : List OverrideMatch) (so : List ScopeKind)
    (hall : ∀ m ∈ ms, m.override.state ≠ OverrideStateEnabled ∧
      m.override.state ≠ OverrideStateDisabled) :
    (defaultResolveStrategy chain ms ⟨so⟩).1.matched = false := by
  have hnone : strategyLoop chain ms (groupOrderFor so) = none := by
    apply strategyLoop_none
    intro grp _ hdec
    obtain ⟨hne, hmat⟩ := hdec
    have := evaluateGroup_no_value grp (collectGroupMatches grp chain ms)
      (fun m hm => hall m (mem_of_collectGroupMatches hm))
    rw [hmat] at this
    exact Bool.noConfusion this
  unfold defaultResolveStrategy
  by_cases hms : ms.isEmpty
  · rw [if_pos hms]
    rfl
  · rw [if_neg hms, hnone]
    rfl

theorem aliasesFor_nil (key : String) : AliasesFor [] key = [] := by
  unfold AliasesFor
  by_cases h : NormalizeKey [] key = "" <;> simp [h]

theorem normalizeMatches_of_no_empty_state (ms : List OverrideMatch)
    (h : ∀ m ∈ ms, m.override.state ≠ "") : normalizeMatches ms = ms := by
  unfold normalizeMatches
  induction ms with
  | nil => rfl
  | cons m t ih =>
    rw [List.map_cons]
    rw [if_neg (h m (List.mem_cons_self m t))]
    rw [ih (fun x hx => h x (List.mem_cons_of_mem m hx))]

/-- The matches a chain produces against a store holding a single
override ov at scope key sk. -/
def pointMatches (chain : ScopeChain) (sk : MemScopeKey) (ov : Override) :
    List OverrideMatch :=
  chain.filterMap (fun ref =>
    if scopeKeyFromRef ref = sk then some ⟨ref, ov⟩ else none)

theorem mem_pointMatches_self {chain : ScopeChain} {ref : ScopeRef} (ov : Override)
    (hchain : ref ∈ chain) :
    (⟨ref, ov⟩ : OverrideMatch) ∈ pointMatches chain (scopeKeyFromRef ref) ov :=
  List.mem_filterMap.mpr ⟨ref, hchain, by rw [if_pos rfl]⟩

theorem override_of_mem_pointMatches {chain : ScopeChain} {sk : MemScopeKey}
    {ov : Override} {m : OverrideMatch} (hm : m ∈ pointMatches chain sk ov) :
    m.override = ov := by
  obtain ⟨ref, _, hf⟩ := List.mem_filterMap.mp hm
  by_cases hh : scopeKeyFromRef ref = sk
  · rw [if_pos hh] at hf
    cases hf
    rfl
  · rw [if_neg hh] at hf
    exact absurd hf (Option.noConfusion)

theorem memGetAll_single (nk : String) (sk : MemScopeKey) (ov : Override)
    (chain : ScopeChain)
    (hfix : storeNormalizeKey [] nk = Except.ok nk)
    (hs : ov.state ≠ "") :
    memGetAll [] [(nk, [(sk, ov)])] nk chain
      = Except.ok (pointMatches chain sk ov) := by
  unfold memGetAll pointMatches
  rw [hfix]
  simp only [alLookup, if_pos rfl, Option.getD_some]
  rw [if_neg (by simp)]
  congr 1
  apply congrArg (fun f => List.filterMap f chain)
  funext ref
  by_cases h : scopeKeyFromRef ref = sk
  · rw [if_pos h, if_pos h.symm]
    simp [hs]
  · rw [if_neg h, if_neg (fun hh => h hh.symm)]
    rfl

theorem memGetAll_empty_store (nk : String) (chain : ScopeChain)
    (hfix : storeNormalizeKey [] nk = Except.ok nk) :
    memGetAll [] [] nk chain = Except.ok [] := by
  unfold memGetAll
  rw [hfix]
  rfl

/-- The strategy group a scope kind belongs to. -/
def groupOfKind : ScopeKind → GroupKind
  | ScopeKind.user => groupUser
  | ScopeKind.role => groupRolePerm
  | ScopeKind.perm => groupRolePerm
  | ScopeKind.org => groupOrg
  | ScopeKind.tenant => groupTenant
  | ScopeKind.system => groupSystem

theorem scopeKindInGroup_groupOfKind (k : ScopeKind) :
    scopeKindInGroup k (groupOfKind k) = true := by
  cases k <;> decide

theorem groupOfKind_mem_defaultOrder (k : ScopeKind) :
    groupOfKind k ∈ groupOrderFor defaultScopeOrder := by
  cases k <;> decide

/-- A Gate whose override reader is the given MemoryStore (the store
is injected with WithOverrideStore in Go). -/
def withStore (g : GateM) (st : MemoryStore) : GateM :=
  { g with overrides := some (memGetAll g.aliases st) }

@[simp] theorem withStore_aliases (g : GateM) (st : MemoryStore) :
    (withStore g st).aliases = g.aliases := rfl

@[simp] theorem withStore_defaults (g : GateM) (st : MemoryStore) :
    (withStore g st).defaults = g.defaults := rfl

@[simp] theorem withStore_overrides (g : GateM) (st : MemoryStore) :
    (withStore g st).overrides = some (memGetAll g.aliases st) := rfl

@[simp] theorem withStore_claimsResult (g : GateM) (st : MemoryStore) :
    (withStore g st).claimsResult = g.claimsResult := rfl

@[simp] theorem withStore_permissionProvider (g : GateM) (st : MemoryStore) :
    (withStore g st).permissionProvider = g.permissionProvider := rfl

@[simp] theorem withStore_cacheGet (g : GateM) (st : MemoryStore) :
    (withStore g st).cacheGet = g.cacheGet := rfl

@[simp] theorem withStore_strictStore (g : GateM) (st : MemoryStore) :
    (withStore g st).strictStore = g.strictStore := rfl

@[simp] theorem withStore_scopeOrder (g : GateM) (st : MemoryStore) :
    (withStore g st).scopeOrder = g.scopeOrder := rfl

@[simp] theorem withStore_failureMode (g : GateM) (st : MemoryStore) :
    (withStore g st).failureMode = g.failureMode := rfl

@[simp] theorem withStore_failureFallbackChain (g : GateM) (st : MemoryStore) :
    (withStore g st).failureFallbackChain = g.failureFallbackChain := rfl

@[simp] theorem withStore_appendSystemOnFailure (g : GateM) (st : MemoryStore) :
    (withStore g st).appendSystemOnFailure = g.appendSystemOnFailure := rfl

@[simp] theorem withStore_appendSystemOnProvidedChain (g : GateM) (st : MemoryStore) :
    (withStore g st).appendSystemOnProvidedChain = g.appendSystemOnProvidedChain := rfl

theorem applyStrategyM_withStore (g : GateM) (st : MemoryStore) (chain : ScopeChain)
    (ms : List OverrideMatch) :
    applyStrategyM (withStore g st) chain ms
      = defaultResolveStrategy chain ms ⟨g.scopeOrder⟩ := rfl

theorem resolveOverridesM_withStore (g : GateM) (st : MemoryStore) (nk : String)
    (chain : ScopeChain) (ms : List OverrideMatch)
    (hA : g.aliases = [])
    (hget : memGetAll [] st nk chain = Except.ok ms)
    (hnm : normalizeMatches ms = ms) :
    resolveOverridesM (withStore g st) (memGetAll [] st) nk chain
      = (if (applyStrategyM (withStore g st) chain ms).1.matched
         then Except.ok (applyStrategyM (withStore g st) chain ms)
         else Except.ok (emptyOverrideDecision,
           { emptyResolveTrace with strategy := "default" })) := by
  unfold resolveOverridesM
  rw [hget]
  simp only [hnm]
  by_cases hm : (applyStrategyM (withStore g st) chain ms).1.matched
  · rw [if_pos hm, if_pos hm]
  · rw [if_neg hm, if_neg hm]
    rw [show (withStore g st).aliases = g.aliases from rfl, hA, aliasesFor_nil]
    rfl

theorem resolve_withStore_matched (g : GateM) (st : MemoryStore) (k : String)
    (chain : ScopeChain) (r : OverrideDecision × ResolveTrace)
    (hA : g.aliases = [])
    (happ : g.appendSystemOnProvidedChain = false)
    (hcg : g.cacheGet = fun _ _ => none)
    (hk : NormalizeKey [] (trimSpace k) ≠ "")
    (hres : resolveOverridesM (withStore g st) (memGetAll [] st)
      (NormalizeKey [] (trimSpace k)) chain = Except.ok r)
    (hm : r.1.matched = true) :
    (resolve (withStore g st) k (some chain)).value = r.1.value ∧
    (resolve (withStore g st) k (some chain)).trace.source = ResolveSourceOverride ∧
    (resolve (withStore g st) k (some chain)).error = none := by
  have hc : resolveChainM (withStore g st) (some chain) = Except.ok chain := by
    simp [resolveChainM, happ]
  obtain ⟨d, t⟩ := r
  simp only at hm
  refine ⟨?_, ?_, ?_⟩ <;>
    simp [resolve, hA, hk, hc, hcg, hres, hm]

theorem resolve_withStore_unmatched (g : GateM) (st : MemoryStore) (k : String)
    (chain : ScopeChain) (r : OverrideDecision × ResolveTrace) (dr : DefaultResult)
    (hA : g.aliases = [])
    (happ : g.appendSystemOnProvidedChain = false)
    (hcg : g.cacheGet = fun _ _ => none)
    (hk : NormalizeKey [] (trimSpace k) ≠ "")
    (hres : resolveOverridesM (withStore g st) (memGetAll [] st)
      (NormalizeKey [] (trimSpace k)) chain = Except.ok r)
    (hm : r.1.matched = false)
    (hdef : g.defaults (NormalizeKey [] (trimSpace k)) = Except.ok dr) :
    (resolve (withStore g st) k (some chain)).value
      = (if dr.set then dr.value else false) ∧
    (resolve (withStore g st) k (some chain)).trace.source
      = (if dr.set then ResolveSourceDefault else ResolveSourceFallback) ∧
    (resolve (withStore g st) k (some chain)).error = none := by
  have hc : resolveChainM (withStore g st) (some chain) = Except.ok chain := by
    simp [resolveChainM, happ]
  obtain ⟨d, t⟩ := r
  simp only at hm
  have hrw : resolve (withStore g st) k (some chain)
      = defaultsPhase (withStore g st) (NormalizeKey [] (trimSpace k)) chain
        { emptyResolveTrace with
            key := trimSpace k
            normalizedKey := NormalizeKey [] (trimSpace k)
            chain := chain
            claimsFailureMode := g.failureMode
            override := t.override
            strategy := t.strategy }
        none := by
    simp [resolve, hA, hk, hc, hcg, hres, hm]
  rw [hrw]
  exact defaultsPhase_of_ok hdef

theorem gateSetMem_empty_store (g : GateM) (k : String) (s : ScopeRef) (v : Bool)
    (hA : g.aliases = [])
    (hk : NormalizeKey [] (trimSpace k) ≠ "")
    (hfix : storeNormalizeKey [] (NormalizeKey [] (trimSpace k))
      = Except.ok (NormalizeKey [] (trimSpace k))) :
    gateSetMem g [] k s v = Except.ok
      [(NormalizeKey [] (trimSpace k),
        [(scopeKeyFromRef (normalizeScopeRef g s),
          if v then EnabledOverride else DisabledOverride)])] := by
  simp only [gateSetMem, hA]
  rw [if_neg hk]
  simp only [memSet, hfix]
  rfl

theorem gateUnsetMem_single (g : GateM) (k : String) (s : ScopeRef) (ov : Override)
    (hA : g.aliases = [])
    (hk : NormalizeKey [] (trimSpace k) ≠ "")
    (hfix : storeNormalizeKey [] (NormalizeKey [] (trimSpace k))
      = Except.ok (NormalizeKey [] (trimSpace k))) :
    gateUnsetMem g
      [(NormalizeKey [] (trimSpace k),
        [(scopeKeyFromRef (normalizeScopeRef g s), ov)])] k s
      = ([(NormalizeKey [] (trimSpace k),
          [(scopeKeyFromRef (normalizeScopeRef g s), UnsetOverride)])], none) := by
  simp only [gateUnsetMem, hA]
  rw [if_neg hk]
  simp only [memUnset, hfix]
  simp only [alLookup, if_pos rfl, Option.getD_some, alInsert]
  rw [aliasesFor_nil]
  rfl

theorem gateSetMem_empty_store_enabled (g : GateM) (k : String) (s : ScopeRef)
    (hA : g.aliases = [])
    (hk : NormalizeKey [] (trimSpace k) ≠ "")
    (hfix : storeNormalizeKey [] (NormalizeKey [] (trimSpace k))
      = Except.ok (NormalizeKey [] (trimSpace k))) :
    gateSetMem g [] k s true = Except.ok
      [(NormalizeKey [] (trimSpace k),
        [(scopeKeyFromRef (normalizeScopeRef g s), EnabledOverride)])] := by
  rw [gateSetMem_empty_store g k s true hA hk hfix]
  rfl

/-- C4: round trip through the in-memory store.  Starting from the
empty store, a successful Set(k, s, true) makes resolution with any
chain containing the normalized s return true with source override
and nil error; a subsequent Unset(k, s) leaves only the unset
tombstone, which yields no override decision, so resolution returns
exactly what it returns over the empty store — the configured default
or the false fallback. -/
theorem set_then_unset_roundtrip (g : GateM) (k : String) (s : ScopeRef)
    (chain : ScopeChain) (dr : DefaultResult) (st₁ st₂ : MemoryStore)
    (hA : g.aliases = [])
    (hso : g.scopeOrder = defaultScopeOrder)
    (happ : g.appendSystemOnProvidedChain = false)
    (hcg : g.cacheGet = fun _ _ => none)
    (hk : NormalizeKey [] (trimSpace k) ≠ "")
    (hfix : storeNormalizeKey [] (NormalizeKey [] (trimSpace k))
      = Except.ok (NormalizeKey [] (trimSpace k)))
    (hchain : normalizeScopeRef g s ∈ chain)
    (hdef : g.defaults (NormalizeKey [] (trimSpace k)) = Except.ok dr)
    (hset : gateSetMem g [] k s true = Except.ok st₁)
    (hunset : gateUnsetMem g st₁ k s = (st₂, none)) :
    ((resolve (withStore g st₁) k (some chain)).value = true ∧
     (resolve (withStore g st₁) k (some chain)).trace.source = ResolveSourceOverride ∧
     (resolve (withStore g st₁) k (some chain)).error = none) ∧
    ((resolve (withStore g st₂) k (some chain)).value
       = (resolve (withStore g []) k (some chain)).value ∧
     (resolve (withStore g st₂) k (some chain)).trace.source
       = (resolve (withStore g []) k (some chain)).trace.source ∧
     (resolve (withStore g st₂) k (some chain)).error = none ∧
     (resolve (withStore g []) k (some chain)).value
       = (if dr.set then dr.value else false)) := by
  rw [gateSetMem_empty_store_enabled g k s hA hk hfix] at hset
  simp only [Except.ok.injEq] at hset
  subst hset
  rw [gateUnsetMem_single g k s _ hA hk hfix] at hunset
  simp only [Prod.mk.injEq] at hunset
  obtain ⟨hst₂, -⟩ := hunset
  subst hst₂
  -- phase 1: the store holds one enabled override at the written point
  have hget₁ := memGetAll_single (NormalizeKey [] (trimSpace k))
    (scopeKeyFromRef (normalizeScopeRef g s)) EnabledOverride chain hfix (by decide)
  have hmem₁ := mem_pointMatches_self EnabledOverride hchain
  have hall₁ : ∀ m ∈ pointMatches chain (scopeKeyFromRef (normalizeScopeRef g s))
      EnabledOverride, m.override.state = OverrideStateEnabled := by
    intro m hm
    rw [override_of_mem_pointMatches hm]
    rfl
  have hnm₁ := normalizeMatches_of_no_empty_state _
    (fun m hm => by rw [hall₁ m hm]; decide)
  have hcover₁ : ∃ grp ∈ groupOrderFor defaultScopeOrder,
      collectGroupMatches grp chain
        (pointMatches chain (scopeKeyFromRef (normalizeScopeRef g s))
          EnabledOverride) ≠ [] := by
    refine ⟨groupOfKind (normalizeScopeRef g s).kind, groupOfKind_mem_defaultOrder _, ?_⟩
    have hlk : (matchMapLookup
        (pointMatches chain (scopeKeyFromRef (normalizeScopeRef g s)) EnabledOverride)
        (scopeKey (normalizeScopeRef g s))).isSome := by
      unfold matchMapLookup
      rw [List.find?_isSome]
      exact ⟨⟨normalizeScopeRef g s, EnabledOverride⟩, List.mem_reverse.mpr hmem₁, by simp⟩
    obtain ⟨m', hm'⟩ := Option.isSome_iff_exists.mp hlk
    apply List.ne_nil_of_mem (a := m')
    unfold collectGroupMatches
    exact List.mem_filterMap.mpr ⟨normalizeScopeRef g s, hchain,
      by rw [if_pos (scopeKindInGroup_groupOfKind _)]; exact hm'⟩
  have hstrat₁ := defaultResolveStrategy_all_enabled chain _ defaultScopeOrder
    (List.ne_nil_of_mem hmem₁) hall₁ hcover₁
  have hres₁ := resolveOverridesM_withStore g _ (NormalizeKey [] (trimSpace k)) chain _
    hA hget₁ hnm₁
  rw [applyStrategyM_withStore, hso] at hres₁
  rw [if_pos hstrat₁.1] at hres₁
  have hphase₁ := resolve_withStore_matched g _ k chain _ hA happ hcg hk hres₁
    hstrat₁.1
  -- phase 2: after Unset the only record is the unset tombstone
  have hget₂ := memGetAll_single (NormalizeKey [] (trimSpace k))
    (scopeKeyFromRef (normalizeScopeRef g s)) UnsetOverride chain hfix (by decide)
  have hall₂ : ∀ m ∈ pointMatches chain (scopeKeyFromRef (normalizeScopeRef g s))
      UnsetOverride,
      m.override.state ≠ OverrideStateEnabled ∧
      m.override.state ≠ OverrideStateDisabled := by
    intro m hm
    rw [override_of_mem_pointMatches hm]
    exact ⟨by decide, by decide⟩
  have hnm₂ := normalizeMatches_of_no_empty_state
    (pointMatches chain (scopeKeyFromRef (normalizeScopeRef g s)) UnsetOverride)
    (fun m hm => by rw [override_of_mem_pointMatches hm]; decide)
  have hstrat₂ := defaultResolveStrategy_no_value chain
    (pointMatches chain (scopeKeyFromRef (normalizeScopeRef g s)) UnsetOverride)
    defaultScopeOrder hall₂
  have hres₂ := resolveOverridesM_withStore g _ (NormalizeKey [] (trimSpace k)) chain _
    hA hget₂ hnm₂
  rw [applyStrategyM_withStore, hso] at hres₂
  rw [if_neg (by rw [hstrat₂]; exact Bool.noConfusion)] at hres₂
  have hphase₂ := resolve_withStore_unmatched g _ k chain _ dr hA happ hcg hk hres₂
    rfl hdef
  -- phase 0: the empty store yields no matches at all
  have hget₀ := memGetAll_empty_store (NormalizeKey [] (trimSpace k)) chain hfix
  have hres₀ := resolveOverridesM_withStore g [] (NormalizeKey [] (trimSpace k)) chain []
    hA hget₀ rfl
  rw [applyStrategyM_withStore, hso] at hres₀
  have hs0 : (defaultResolveStrategy chain [] ⟨defaultScopeOrder⟩).1.matched = false := rfl
  rw [if_neg (by rw [hs0]; exact Bool.noConfusion)] at hres₀
  have hphase₀ := resolve_withStore_unmatched g [] k chain _ dr hA happ hcg hk hres₀
    rfl hdef
  refine ⟨⟨?_, hphase₁.2.1, hphase₁.2.2⟩, ?_, ?_, hphase₂.2.2, hphase₀.1⟩
  · rw [hphase₁.1, hstrat₁.2]
  · rw [hphase₂.1, hphase₀.1]
  · rw [hphase₂.2.1, hphase₀.2.1]

/-- Witness for C4 at spec scenarios B and D: Set("checkout.v2",
tenant acme, true), resolve over a chain holding the tenant ref, then
Unset and resolve again, landing back on the configured default. -/
theorem set_then_unset_roundtrip_witness :
    (resolve (withStore gateDefaultsDemo
        [("checkout.v2", [(⟨ScopeKind.tenant, "acme", "acme", ""⟩, EnabledOverride)])])
      "checkout.v2" (some [⟨ScopeKind.tenant, "acme", "acme", ""⟩])).value = true ∧
    (resolve (withStore gateDefaultsDemo
        [("checkout.v2", [(⟨ScopeKind.tenant, "acme", "acme", ""⟩, UnsetOverride)])])
      "checkout.v2" (some [⟨ScopeKind.tenant, "acme", "acme", ""⟩])).value
      = (resolve (withStore gateDefaultsDemo [])
          "checkout.v2" (some [⟨ScopeKind.tenant, "acme", "acme", ""⟩])).value ∧
    (resolve (withStore gateDefaultsDemo [])
      "checkout.v2" (some [⟨ScopeKind.tenant, "acme", "acme", ""⟩])).value = true := by
  have h := set_then_unset_roundtrip gateDefaultsDemo "checkout.v2"
    ⟨ScopeKind.tenant, "acme", "acme", ""⟩
    [⟨ScopeKind.tenant, "acme", "acme", ""⟩] ⟨true, true⟩
    [("checkout.v2", [(⟨ScopeKind.tenant, "acme", "acme", ""⟩, EnabledOverride)])]
    [("checkout.v2", [(⟨ScopeKind.tenant, "acme", "acme", ""⟩, UnsetOverride)])]
    rfl rfl rfl rfl (by decide) rfl (by decide) rfl rfl rfl
  exact ⟨h.1.1, h.2.1, by rw [h.2.2.2.2]; rfl⟩

theorem charListLeB_total : ∀ (a b : List Char),
    charListLeB a b = true ∨ charListLeB b a = true
  | [], _ => Or.inl rfl
  | _ :: _, [] => Or.inr rfl
  | a :: as, b :: bs => by
    rcases Nat.lt_trichotomy a.toNat b.toNat with h | h | h
    · left
      simp [charListLeB, h]
    · have h1 : ¬ a.toNat < b.toNat := by omega
      have h2 : ¬ b.toNat < a.toNat := by omega
      rcases charListLeB_total as bs with ih | ih
      · left
        simp [charListLeB, h1, h2, ih]
      · right
        simp [charListLeB, h1, h2, ih]
    · right
      simp [charListLeB, h]

theorem charListLeB_trans : ∀ (a b c : List Char),
    charListLeB a b = true → charListLeB b c = true → charListLeB a c = true
  | [], _, _ => fun _ _ => rfl
  | _ :: _, [], _ => fun h _ => by cases h
  | _ :: _, _ :: _, [] => fun _ h => by cases h
  | a :: as, b :: bs, c :: cs => fun h1 h2 => by
    by_cases hab : a.toNat < b.toNat
    · by_cases hcb : c.toNat < b.toNat
      · by_cases hbc : b.toNat < c.toNat
        · simp [charListLeB, (by omega : a.toNat < c.toNat)]
        · simp [charListLeB, hbc, hcb] at h2
      · have hac : a.toNat < c.toNat := by omega
        simp [charListLeB, hac]
    · by_cases hba : b.toNat < a.toNat
      · simp [charListLeB, hab, hba] at h1
      · by_cases hbc : b.toNat < c.toNat
        · have hac : a.toNat < c.toNat := by omega
          simp [charListLeB, hac]
        · by_cases hcb : c.toNat < b.toNat
          · simp [charListLeB, hbc, hcb] at h2
          · have h1' : charListLeB as bs = true := by
              simpa [charListLeB, hab, hba] using h1
            have h2' : charListLeB bs cs = true := by
              simpa [charListLeB, hbc, hcb] using h2
            have hac1 : ¬ a.toNat < c.toNat := by omega
            have hac2 : ¬ c.toNat < a.toNat := by omega
            simpa [charListLeB, hac1, hac2] using charListLeB_trans as bs cs h1' h2'

theorem charListLeB_antisymm : ∀ (a b : List Char),
    charListLeB a b = true → charListLeB b a = true → a = b
  | [], [] => fun _ _ => rfl
  | [], _ :: _ => fun _ h => by cases h
  | _ :: _, [] => fun h _ => by cases h
  | a :: as, b :: bs => fun h1 h2 => by
    by_cases hab : a.toNat < b.toNat
    · have hba : ¬ b.toNat < a.toNat := by omega
      simp [charListLeB, hba, hab] at h2
    · by_cases hba : b.toNat < a.toNat
      · simp [charListLeB, hab, hba] at h1
      · have h1' : charListLeB as bs = true := by
          simpa [charListLeB, hab, hba] using h1
        have h2' : charListLeB bs as = true := by
          simpa [charListLeB, hba, hab] using h2
        have hnat : a.toNat = b.toNat := by omega
        have heq : a = b := Char.ext (UInt32.ext hnat)
        rw [heq, charListLeB_antisymm as bs h1' h2']

instance : IsTotal String strle := ⟨fun a b => charListLeB_total a.data b.data⟩

instance : IsTrans String strle := ⟨fun a b c => charListLeB_trans a.data b.data c.data⟩

instance : IsAntisymm String strle :=
  ⟨fun a b h1 h2 => String.ext (charListLeB_antisymm a.data b.data h1 h2)⟩

theorem sortAndDedupe_perm {l₁ l₂ : List String} (h : l₁.Perm l₂) :
    sortAndDedupe l₁ = sortAndDedupe l₂ := by
  unfold sortAndDedupe
  by_cases h1 : l₁.isEmpty
  · have h2 : l₂.isEmpty := by
      rw [List.isEmpty_iff] at h1 ⊢
      subst h1
      exact h.symm.eq_nil
    rw [if_pos h1, if_pos h2]
  · have h2 : ¬ l₂.isEmpty := by
      intro hc
      apply h1
      rw [List.isEmpty_iff] at hc ⊢
      subst hc
      exact h.eq_nil
    rw [if_neg h1, if_neg h2]
    unfold sortStrings
    exact List.eq_of_perm_of_sorted
      ((List.perm_insertionSort strle l₁.dedup).trans
        ((h.dedup).trans (List.perm_insertionSort strle l₂.dedup).symm))
      (List.sorted_insertionSort strle l₁.dedup)
      (List.sorted_insertionSort strle l₂.dedup)

theorem sortAndDedupe_nodup (l : List String) : (sortAndDedupe l).Nodup := by
  unfold sortAndDedupe
  by_cases h : l.isEmpty
  · rw [if_pos h]
    exact List.nodup_nil
  · rw [if_neg h]
    exact (List.nodup_dedup l).perm (List.perm_insertionSort strle l.dedup).symm

theorem mem_sortAndDedupe {x : String} {l : List String}
    (h : x ∈ sortAndDedupe l) : x ∈ l := by
  unfold sortAndDedupe at h
  by_cases he : l.isEmpty
  · rw [if_pos he] at h
    exact absurd h (List.not_mem_nil x)
  · rw [if_neg he] at h
    exact List.mem_dedup.mp ((List.perm_insertionSort strle l.dedup).mem_iff.mp h)

theorem normalizeList_perm {l₁ l₂ : List String} (norm : String → String)
    (h : l₁.Perm l₂) :
    (normalizeList l₁ norm).Perm (normalizeList l₂ norm) := by
  unfold normalizeList
  by_cases h1 : l₁.isEmpty
  · have h2 : l₂.isEmpty := by
      rw [List.isEmpty_iff] at h1 ⊢
      subst h1
      exact h.symm.eq_nil
    rw [if_pos h1, if_pos h2]
  · have h2 : ¬ l₂.isEmpty := by
      intro hc
      apply h1
      rw [List.isEmpty_iff] at hc ⊢
      subst hc
      exact h.eq_nil
    rw [if_neg h1, if_neg h2]
    exact h.filterMap _

theorem mem_normalizeList_ne_empty {x : String} {l : List String}
    {norm : String → String} (h : x ∈ normalizeList l norm) : x ≠ "" := by
  unfold normalizeList at h
  by_cases he : l.isEmpty
  · rw [if_pos he] at h
    exact absurd h (List.not_mem_nil x)
  · rw [if_neg he] at h
    obtain ⟨v, _, hf⟩ := List.mem_filterMap.mp h
    by_cases h1 : trimSpace v = ""
    · rw [if_pos h1] at hf
      exact absurd hf (Option.noConfusion)
    · rw [if_neg h1] at hf
      by_cases h2 : norm (trimSpace v) = ""
      · rw [if_pos h2] at hf
        exact absurd hf (Option.noConfusion)
      · rw [if_neg h2] at hf
        cases hf
        exact h2

theorem buildRolePermRefs_eq_flatMap (kind : ScopeKind) (items : List String)
    (claims : ActorClaims) :
    buildRolePermRefs kind items claims = items.flatMap (fun id =>
      if id = "" then []
      else ⟨kind, id, "", ""⟩ ::
        (if claims.tenantID ≠ "" ∨ claims.orgID ≠ "" then
          [⟨kind, id, claims.tenantID, claims.orgID⟩]
        else [])) := by
  cases items with
  | nil => rfl
  | cons a t => rfl

theorem mem_buildRolePermRefs {kind : ScopeKind} {items : List String}
    {claims : ActorClaims} {r : ScopeRef}
    (h : r ∈ buildRolePermRefs kind items claims) :
    r.kind = kind ∧ r.id ∈ items ∧ r.id ≠ "" := by
  rw [buildRolePermRefs_eq_flatMap] at h
  obtain ⟨id, hid, hr⟩ := List.mem_flatMap.mp h
  by_cases hids : id = ""
  · rw [if_pos hids] at hr
    exact absurd hr (List.not_mem_nil r)
  · rw [if_neg hids] at hr
    rcases List.mem_cons.mp hr with rfl | h2
    · exact ⟨rfl, hid, hids⟩
    · by_cases hq : claims.tenantID ≠ "" ∨ claims.orgID ≠ ""
      · rw [if_pos hq] at h2
        rcases List.mem_singleton.mp h2 with rfl
        exact ⟨rfl, hid, hids⟩
      · rw [if_neg hq] at h2
        exact absurd h2 (List.not_mem_nil r)

theorem nodup_buildRolePermRefs (kind : ScopeKind) (claims : ActorClaims) :
    ∀ items : List String, items.Nodup → "" ∉ items →
      (buildRolePermRefs kind items claims).Nodup
  | [] => fun _ _ => by
    rw [buildRolePermRefs_eq_flatMap]
    exact List.nodup_nil
  | a :: t => fun hnd hne => by
    have hna : a ≠ "" := fun hc => hne (hc ▸ List.mem_cons_self a t)
    rw [buildRolePermRefs_eq_flatMap, List.flatMap_cons, List.nodup_append]
    refine ⟨?_, ?_, ?_⟩
    · rw [if_neg hna]
      by_cases hq : claims.tenantID ≠ "" ∨ claims.orgID ≠ ""
      · rw [if_pos hq]
        refine List.nodup_cons.mpr ⟨?_, List.nodup_singleton _⟩
        intro hc
        rw [List.mem_singleton] at hc
        rcases hq with hq | hq
        · exact hq (congrArg ScopeRef.tenantID hc).symm
        · exact hq (congrArg ScopeRef.orgID hc).symm
      · rw [if_neg hq]
        exact List.nodup_cons.mpr ⟨List.not_mem_nil _, List.nodup_nil⟩
    · rw [← buildRolePermRefs_eq_flatMap]
      exact nodup_buildRolePermRefs kind claims t (List.nodup_cons.mp hnd).2
        (fun hc => hne (List.mem_cons_of_mem a hc))
    · intro x hx1 hx2
      have hida : x.id = a := by
        rw [if_neg hna] at hx1
        rcases List.mem_cons.mp hx1 with rfl | h2
        · rfl
        · by_cases hq : claims.tenantID ≠ "" ∨ claims.orgID ≠ ""
          · rw [if_pos hq] at h2
            rcases List.mem_singleton.mp h2 with rfl
            rfl
          · rw [if_neg hq] at h2
            exact absurd h2 (List.not_mem_nil x)
      have hidt : x.id ∈ t := by
        rw [← buildRolePermRefs_eq_flatMap] at hx2
        exact (mem_buildRolePermRefs hx2).2.1
      rw [hida] at hidt
      exact (List.nodup_cons.mp hnd).1 hidt

theorem buildRolePermRefs_congr_claims (kind : ScopeKind) (items : List String)
    (c₁ c₂ : ActorClaims) (ht : c₁.tenantID = c₂.tenantID)
    (ho : c₁.orgID = c₂.orgID) :
    buildRolePermRefs kind items c₁ = buildRolePermRefs kind items c₂ := by
  rw [buildRolePermRefs_eq_flatMap, buildRolePermRefs_eq_flatMap, ht, ho]

/-- C9: under the default sort-and-deduplicate configuration, the
chain builder is insensitive to any permutation of the provided
Roles/Perms lists, and with the default scope order the role refs and
perm refs of the chain are exactly the refs built from the sorted,
deduplicated, normalized identifier lists — with no duplicate ref
(each identifier contributes its global ref and at most one
tenant/org-qualified ref, each appearing once). -/
theorem chain_deduped_and_order_insensitive (g : GateM) (claims : ActorClaims)
    (hpo : g.preserveRolePermOrder = false)
    (hso : g.scopeOrder = defaultScopeOrder) :
    (∀ roles2 perms2, roles2.Perm claims.roles → perms2.Perm claims.perms →
      buildChain g { claims with roles := roles2, perms := perms2 }
        = buildChain g claims) ∧
    (buildChain g claims).filter (fun r => r.kind == ScopeKind.role)
      = buildRolePermRefs ScopeKind.role
          (sortAndDedupe (normalizeList claims.roles g.rolePermNormalizer)) claims ∧
    ((buildChain g claims).filter (fun r => r.kind == ScopeKind.role)).Nodup ∧
    (buildChain g claims).filter (fun r => r.kind == ScopeKind.perm)
      = buildRolePermRefs ScopeKind.perm
          (sortAndDedupe (normalizeList claims.perms g.rolePermNormalizer)) claims ∧
    ((buildChain g claims).filter (fun r => r.kind == ScopeKind.perm)).Nodup := by
  have hfilter : ∀ kind : ScopeKind,
      (kind = ScopeKind.role ∨ kind = ScopeKind.perm) →
      (buildChain g claims).filter (fun r => r.kind == kind)
        = buildRolePermRefs kind
            (sortAndDedupe (normalizeList
              (if kind = ScopeKind.role then claims.roles else claims.perms)
              g.rolePermNormalizer)) claims := by
    intro kind hk
    unfold buildChain
    rw [hso]
    simp only [defaultScopeOrder, List.flatMap_cons, List.flatMap_nil, List.append_nil,
      List.filter_append, hpo, Bool.not_false, if_true]
    have hself : ∀ kk : ScopeKind, ∀ items,
        (buildRolePermRefs kk items claims).filter (fun r => r.kind == kind)
          = (if kk = kind then buildRolePermRefs kk items claims else []) := by
      intro kk items
      by_cases hkk : kk = kind
      · rw [if_pos hkk]
        apply List.filter_eq_self.mpr
        intro r hr
        rw [(mem_buildRolePermRefs hr).1, hkk]
        simp
      · rw [if_neg hkk]
        apply List.filter_eq_nil.mpr
        intro r hr
        rw [(mem_buildRolePermRefs hr).1]
        simp [hkk]
    have huser : (if claims.subjectID ≠ "" then
        [(⟨ScopeKind.user, claims.subjectID, claims.tenantID, claims.orgID⟩ : ScopeRef)]
      else []).filter (fun r => r.kind == kind) = [] := by
      by_cases h : claims.subjectID ≠ "" <;>
        rcases hk with rfl | rfl <;> simp [h]
    have horg : (if claims.orgID ≠ "" then
        [(⟨ScopeKind.org, claims.orgID, claims.tenantID, claims.orgID⟩ : ScopeRef)]
      else []).filter (fun r => r.kind == kind) = [] := by
      by_cases h : claims.orgID ≠ "" <;>
        rcases hk with rfl | rfl <;> simp [h]
    have htenant : (if claims.tenantID ≠ "" then
        [(⟨ScopeKind.tenant, claims.tenantID, claims.tenantID, ""⟩ : ScopeRef)]
      else []).filter (fun r => r.kind == kind) = [] := by
      by_cases h : claims.tenantID ≠ "" <;>
        rcases hk with rfl | rfl <;> simp [h]
    have hsys : ([(⟨ScopeKind.system, "", "", ""⟩ : ScopeRef)]).filter
        (fun r => r.kind == kind) = [] := by
      rcases hk with rfl | rfl <;> simp
    rw [huser, horg, htenant, hsys, hself ScopeKind.role _, hself ScopeKind.perm _]
    rcases hk with rfl | rfl <;> simp
  have hnoemp : ∀ l : List String,
      "" ∉ sortAndDedupe (normalizeList l g.rolePermNormalizer) := by
    intro l hc
    exact mem_normalizeList_ne_empty (mem_sortAndDedupe hc) rfl
  refine ⟨?_, ?_, ?_, ?_, ?_⟩
  · intro roles2 perms2 hr hp
    simp only [buildChain, hpo, Bool.not_false, if_true]
    apply congrArg (List.flatMap g.scopeOrder)
    funext kind
    cases kind with
    | role =>
      rw [sortAndDedupe_perm (normalizeList_perm g.rolePermNormalizer hr)]
      exact buildRolePermRefs_congr_claims _ _ _ _ rfl rfl
    | perm =>
      rw [sortAndDedupe_perm (normalizeList_perm g.rolePermNormalizer hp)]
      exact buildRolePermRefs_congr_claims _ _ _ _ rfl rfl
    | user => rfl
    | org => rfl
    | tenant => rfl
    | system => rfl
  · simpa using hfilter ScopeKind.role (Or.inl rfl)
  · rw [hfilter ScopeKind.role (Or.inl rfl)]
    simp only [if_pos rfl]
    exact nodup_buildRolePermRefs ScopeKind.role claims _
      (sortAndDedupe_nodup _) (hnoemp _)
  · simpa using hfilter ScopeKind.perm (Or.inr rfl)
  · rw [hfilter ScopeKind.perm (Or.inr rfl)]
    have : (if ScopeKind.perm = ScopeKind.role then claims.roles else claims.perms)
        = claims.perms := by simp
    rw [this]
    exact nodup_buildRolePermRefs ScopeKind.perm claims _
      (sortAndDedupe_nodup _) (hnoemp _)

/-- Claims used by the C9 witness. -/
def claimsDemo : ActorClaims := ⟨"u1", "acme", "", ["beta-tester", "admin-block"], []⟩

/-- The same claims with the roles granted in the opposite order. -/
def claimsDemoSwapped : ActorClaims := ⟨"u1", "acme", "", ["admin-block", "beta-tester"], []⟩

/-- Witness for C9: swapping the two granted roles produces the
identical chain, and the chain's role refs are duplicate-free. -/
theorem chain_deduped_and_order_insensitive_witness :
    buildChain gateDefaultsDemo claimsDemoSwapped = buildChain gateDefaultsDemo claimsDemo ∧
    ((buildChain gateDefaultsDemo claimsDemo).filter
      (fun r => r.kind == ScopeKind.role)).Nodup := by
  have h := chain_deduped_and_order_insensitive gateDefaultsDemo claimsDemo rfl rfl
  exact ⟨h.1 ["admin-block", "beta-tester"] []
    (List.Perm.swap "beta-tester" "admin-block" []) (List.Perm.refl []), h.2.2.1⟩

end FeatureGate
